import Mathlib

set_option maxHeartbeats 1000000
set_option maxRecDepth 8000

/-!
Shallow embedding of the synchrophasor package (IEEE C37.118-2011 codec,
concentrator reader, unit server) and verification of its specification
claims.  Frames are lists of bytes (naturals); machine integers are
naturals / integers with explicit reductions modulo 2^16 or 2^32 where the
Go code works in uint16 / uint32; fallible operations return Except.
-/

namespace Synchrophasor

/-- Protocol errors mirroring the package-level error values of frame.go
(ErrInvalidFrame, ErrCRCFailed, ErrInvalidParameter, ErrInvalidSize,
ErrNotImpl); readErr stands for the io read errors (io.EOF and
io.ErrUnexpectedEOF) surfaced by binary.Read / bytes.Reader.Read, which the
source propagates unwrapped. -/
inductive PErr where
  | invalidFrame
  | crcFailed
  | invalidParameter
  | invalidSize
  | notImpl
  | readErr
deriving DecidableEq, Repr

/-- Big-endian encoding of a uint16 value (writeBinary / binary.Write with
binary.BigEndian on a uint16 field). -/
def u16Bytes (n : Nat) : List Nat := [n / 256 % 256, n % 256]

/-- Big-endian encoding of a uint32 value. -/
def u32Bytes (n : Nat) : List Nat :=
  [n / 2 ^ 24 % 256, n / 2 ^ 16 % 256, n / 256 % 256, n % 256]

/-- Big-endian encoding of an int16 value (two's complement). -/
def i16Bytes (z : Int) : List Nat := u16Bytes (z % 65536).toNat

/-- Big-endian uint16 read at byte offset i (binary.Read of a uint16). -/
def u16At (d : List Nat) (i : Nat) : Nat := 256 * d.getD i 0 + d.getD (i + 1) 0

/-- Big-endian uint32 read at byte offset i. -/
def u32At (d : List Nat) (i : Nat) : Nat :=
  2 ^ 24 * d.getD i 0 + 2 ^ 16 * d.getD (i + 1) 0 + 256 * d.getD (i + 2) 0 + d.getD (i + 3) 0

/-- Reinterpret a 16-bit word as a two's-complement int16. -/
def toInt16 (n : Nat) : Int := if n % 65536 < 32768 then (n % 65536 : Nat) else (n % 65536 : Nat) - 65536

/-- Big-endian int16 read at byte offset i. -/
def i16At (d : List Nat) (i : Nat) : Int := toInt16 (u16At d i)

/-- One shift step of the CRC-16 register: shift left, feed back the
polynomial 0x1021 when the top bit was set, keep 16 bits.  This is the
bitwise form of the sigurn/crc16 table computation for the parameters
Poly 0x1021, Init 0xFFFF, RefIn false, RefOut false, XorOut 0. -/
def crcRound (c : Nat) : Nat :=
  if c.testBit 15 then ((c <<< 1) ^^^ 0x1021) % 65536 else (c <<< 1) % 65536

/-- Absorb one message byte into the CRC register (MSB first). -/
def crcByte (c b : Nat) : Nat := crcRound^[8] (c ^^^ (b <<< 8))

/-- CalcCRC: CRC-16/IEEE-C37.118 (CCITT-FALSE) of a byte string. -/
def CalcCRC (d : List Nat) : Nat := d.foldl crcByte 0xFFFF

/-- C37118: common header fields shared by every frame kind. -/
structure C37118 where
  sync : Nat
  frameSize : Nat
  idCode : Nat
  soc : Nat
  fracSec : Nat
  chk : Nat
deriving DecidableEq, Repr

/-- HeaderFrame: common header plus free-text payload (Go string, kept as
its bytes). -/
structure HeaderFrame where
  base : C37118
  data : List Nat
deriving DecidableEq, Repr

/-- CommandFrame: common header, 16-bit command code, optional opaque
extension payload (nil slice and empty slice encode identically). -/
structure CommandFrame where
  base : C37118
  cmd : Nat
  extraFrame : List Nat
deriving DecidableEq, Repr

/-- NewCommandFrame: sync (0xAA<<8)|0x41, FrameSize 18, all else zero. -/
def newCommandFrame : CommandFrame :=
  { base := { sync := 0xAA41, frameSize := 18, idCode := 0, soc := 0, fracSec := 0, chk := 0 },
    cmd := 0, extraFrame := [] }

/-- The bytes HeaderFrame.Pack accumulates before the CRC: header fields
with FrameSize recomputed as 16 + len(Data), then the payload. -/
def headerBody (h : HeaderFrame) : List Nat :=
  u16Bytes h.base.sync ++ u16Bytes ((16 + h.data.length) % 65536) ++ u16Bytes h.base.idCode ++
    u32Bytes h.base.soc ++ u32Bytes h.base.fracSec ++ h.data

/-- HeaderFrame.Pack: recomputes FrameSize as 16 + len(Data), writes the
header fields, the payload, and the CRC over everything before it. -/
def headerPack (h : HeaderFrame) : List Nat :=
  headerBody h ++ u16Bytes (CalcCRC (headerBody h))

/-- The bytes CommandFrame.Pack accumulates before the CRC: the header
fields (FrameSize written as stored), CMD, and the extension payload. -/
def cmdBody (c : CommandFrame) : List Nat :=
  u16Bytes c.base.sync ++ u16Bytes c.base.frameSize ++ u16Bytes c.base.idCode ++
    u32Bytes c.base.soc ++ u32Bytes c.base.fracSec ++ u16Bytes c.cmd ++ c.extraFrame

/-- CommandFrame.Pack: writes the stored FrameSize field as-is (the source
does NOT recompute it to cover ExtraFrame), the header fields, CMD, the
extension payload, and the CRC over everything before it. -/
def cmdPack (c : CommandFrame) : List Nat :=
  cmdBody c ++ u16Bytes (CalcCRC (cmdBody c))

/-- HeaderFrame.Unpack.  Mirrors the source order: length check, header
reads, declared-size check, payload read (bytes.Reader.Read fails only when
no byte is available; a short read leaves the zero-initialised tail of the
allocated buffer in place), absolute seek to FrameSize-2, CHK read, CRC
comparison over data[:FrameSize-2]. -/
def headerUnpack (d : List Nat) : Except PErr HeaderFrame :=
  if d.length < 16 then .error .invalidSize else
  let sync := u16At d 0
  let fsize := u16At d 2
  if fsize < 16 then .error .invalidSize else
  let idCode := u16At d 4
  let soc := u32At d 6
  let fracSec := u32At d 10
  let dataSize := fsize - 16
  if 0 < dataSize ∧ dataSize < 65000 ∧ d.length ≤ 16 then .error .readErr else
  let payload :=
    if 0 < dataSize ∧ dataSize < 65000 then
      (d.drop 16).take dataSize ++ List.replicate (dataSize - (d.length - 16)) 0
    else []
  if d.length < fsize then .error .readErr else
  let chk := u16At d (fsize - 2)
  if CalcCRC (d.take (fsize - 2)) = chk then
    .ok { base := { sync := sync, frameSize := fsize, idCode := idCode, soc := soc,
                    fracSec := fracSec, chk := chk },
          data := payload }
  else .error .crcFailed

/-- CommandFrame.Unpack.  Mirrors the source order: length check, header
reads, declared-size check, CMD read, ExtraFrame read of FrameSize-18 bytes
(short reads keep the zero tail), sequential CHK read, CRC comparison over
data[:FrameSize-2]. -/
def cmdUnpack (d : List Nat) : Except PErr CommandFrame :=
  if d.length < 18 then .error .invalidSize else
  let sync := u16At d 0
  let fsize := u16At d 2
  if fsize < 18 then .error .invalidSize else
  let idCode := u16At d 4
  let soc := u32At d 6
  let fracSec := u32At d 10
  let cmd := u16At d 14
  let extraSize := fsize - 18
  if 0 < extraSize ∧ extraSize < 65518 ∧ d.length ≤ 16 then .error .readErr else
  let consumed := if 0 < extraSize ∧ extraSize < 65518 then min extraSize (d.length - 16) else 0
  let extra :=
    if 0 < extraSize ∧ extraSize < 65518 then
      (d.drop 16).take extraSize ++ List.replicate (extraSize - (d.length - 16)) 0
    else []
  if d.length < 16 + consumed + 2 then .error .readErr else
  let chk := u16At d (16 + consumed)
  if CalcCRC (d.take (fsize - 2)) = chk then
    .ok { base := { sync := sync, frameSize := fsize, idCode := idCode, soc := soc,
                    fracSec := fracSec, chk := chk },
          cmd := cmd, extraFrame := extra }
  else .error .crcFailed

/-- GetFrameType: sync-byte check then the 3-bit type field of the second
header byte. -/
def getFrameType (d : List Nat) : Except PErr Nat :=
  if d.length < 2 then .error .invalidSize
  else if d.getD 0 0 ≠ 0xAA then .error .invalidFrame
  else .ok ((d.getD 1 0 >>> 4) &&& 7)

/-- PMUStation: one station's channel configuration and live measurement
values.  Strings are byte lists; live phasor / analog / frequency values
are idealised reals (the Go float64 / float32 arithmetic is modelled as
exact real arithmetic). -/
structure PMUStation where
  stn : List Nat
  idCode : Nat
  format : Nat
  phnmr : Nat
  annmr : Nat
  dgnmr : Nat
  chnamPhasor : List (List Nat)
  chnamAnalog : List (List Nat)
  chnamDigital : List (List Nat)
  phunit : List Nat
  anunit : List Nat
  dgunit : List Nat
  fnom : Nat
  cfgCnt : Nat
  stat : Nat
  phasorValues : List (ℝ × ℝ)
  analogValues : List ℝ
  digitalValues : List (List Bool)
  freq : ℝ
  dfreq : ℝ

/-- An all-zero station, used as the default for list lookups. -/
def dummyStation : PMUStation :=
  { stn := [], idCode := 0, format := 0, phnmr := 0, annmr := 0, dgnmr := 0,
    chnamPhasor := [], chnamAnalog := [], chnamDigital := [], phunit := [], anunit := [],
    dgunit := [], fnom := 0, cfgCnt := 0, stat := 0, phasorValues := [], analogValues := [],
    digitalValues := [], freq := 0, dfreq := 0 }

instance : Inhabited PMUStation := ⟨dummyStation⟩

/-- FormatCoord: true when the phasor coordinate system is polar. -/
def formatCoord (p : PMUStation) : Bool := p.format &&& 1 != 0

/-- FormatPhasorType: true when phasors are encoded as 32-bit floats. -/
def formatPhasorType (p : PMUStation) : Bool := p.format &&& 2 != 0

/-- FormatAnalogType: true when analog values are encoded as 32-bit floats. -/
def formatAnalogType (p : PMUStation) : Bool := p.format &&& 4 != 0

/-- FormatFreqType: true when freq/dfreq are encoded as 32-bit floats. -/
def formatFreqType (p : PMUStation) : Bool := p.format &&& 8 != 0

/-- GetPhasorFactor: low 24 bits of the channel's PHUNIT word, 1 when the
index is out of range. -/
def getPhasorFactor (p : PMUStation) (index : Nat) : Nat :=
  if p.phunit.length ≤ index then 1 else p.phunit.getD index 0 &&& 0xFFFFFF

/-- GetNominalFrequency: 50 Hz when Fnom selects 50 Hz, else 60 Hz. -/
def getNominalFrequency (p : PMUStation) : ℝ := if p.fnom = 1 then 50 else 60

/-- ConfigFrame: common header, time base, station count, data rate,
station list.  Config-v1 and Config-v2 share this layout (the v1 wrapper
only changes the sync subtype). -/
structure ConfigFrame where
  base : C37118
  timeBase : Nat
  numPMU : Nat
  dataRate : Int
  pmuStationList : List PMUStation

/-- Modelled from the spec: the padString helper is not under src/; per the
spec, channel and station name fields are fixed-width 16-byte space-padded
fields, so padString pads with spaces to 16 bytes (and the fixed field
width truncates longer names). -/
def padName16 (s : List Nat) : List Nat := (s.take 16) ++ List.replicate (16 - s.length) 0x20

/-- An ASCII byte that strings.TrimSpace removes. -/
def isSpaceByte (b : Nat) : Bool := b = 0x20 || b = 0x09 || b = 0x0A || b = 0x0B || b = 0x0C || b = 0x0D

/-- strings.TrimSpace on a byte string: drop leading and trailing
whitespace. -/
def trimSpace (s : List Nat) : List Nat :=
  ((s.dropWhile isSpaceByte).reverse.dropWhile isSpaceByte).reverse

/-- The per-station byte contribution to the Config frame size, as summed
by ConfigFrame.Pack: 30-byte station header, 16 bytes per phasor/analog
name and per digital channel name (16 names per digital word), 4 bytes per
phasor/analog/digital unit word. -/
def configStationSize (p : PMUStation) : Nat :=
  30 + 16 * (p.phnmr + p.annmr + 16 * p.dgnmr) + 4 * (p.phnmr + p.annmr + p.dgnmr)

/-- The Config frame size computed (in uint16 arithmetic) by
ConfigFrame.Pack before encoding. -/
def configSize (c : ConfigFrame) : Nat :=
  (24 + (c.pmuStationList.map configStationSize).sum) % 65536

/-- The encoding of one station inside a Config frame: padded name, five
uint16 fields, channel names (digital names padded out to 16 per word),
unit words, FNOM and CFGCNT. -/
def configStationBytes (p : PMUStation) : List Nat :=
  padName16 p.stn ++
  u16Bytes p.idCode ++ u16Bytes p.format ++ u16Bytes p.phnmr ++ u16Bytes p.annmr ++
  u16Bytes p.dgnmr ++
  (p.chnamPhasor.map padName16).flatten ++
  (p.chnamAnalog.map padName16).flatten ++
  ((List.range (16 * p.dgnmr % 65536)).map fun i =>
    if i < p.chnamDigital.length then padName16 (p.chnamDigital.getD i [])
    else padName16 []).flatten ++
  (p.phunit.map u32Bytes).flatten ++
  (p.anunit.map u32Bytes).flatten ++
  (p.dgunit.map u32Bytes).flatten ++
  u16Bytes p.fnom ++ u16Bytes p.cfgCnt

/-- ConfigFrame.Pack: computed size, common header, time base, station
count, per-station blocks, data rate, CRC over everything before it. -/
def configPack (c : ConfigFrame) : List Nat :=
  let body := u16Bytes c.base.sync ++ u16Bytes (configSize c) ++ u16Bytes c.base.idCode ++
    u32Bytes c.base.soc ++ u32Bytes c.base.fracSec ++ u32Bytes c.timeBase ++
    u16Bytes c.numPMU ++
    (c.pmuStationList.map configStationBytes).flatten ++
    i16Bytes c.dataRate
  body ++ u16Bytes (CalcCRC body)

/-- unpackPMUStation: parse one station block at byte offset pos.  Mirrors
the source: 16-byte name read (short reads keep the zero tail), five
uint16 fields, count sanity check, skip over the channel-name region to
read the unit words and FNOM/CFGCNT, then seek back and read the channel
names (those reads always lie below the already validated unit region, so
they are full 16-byte slices), finally restore the position past
FNOM/CFGCNT.  Every io read failure is collapsed into readErr. -/
def unpackPMUStation (d : List Nat) (pos : Nat) : Except PErr (PMUStation × Nat) :=
  if d.length ≤ pos then .error .readErr else
  let stnBytes := (d.drop pos).take 16 ++ List.replicate (16 - (d.length - pos)) 0
  if d.length < pos + 26 then .error .readErr else
  let idCode := u16At d (pos + 16)
  let format := u16At d (pos + 18)
  let phnmr := u16At d (pos + 20)
  let annmr := u16At d (pos + 22)
  let dgnmr := u16At d (pos + 24)
  if 1000 < phnmr ∨ 1000 < annmr ∨ 100 < dgnmr then .error .invalidSize else
  let channelBytes := 16 * (phnmr + annmr + 16 * dgnmr)
  let channelPos := pos + 26
  let unitPos := channelPos + channelBytes
  if d.length < unitPos + 4 * (phnmr + annmr + dgnmr) + 4 then .error .readErr else
  let phunit := (List.range phnmr).map fun j => u32At d (unitPos + 4 * j)
  let anunit := (List.range annmr).map fun j => u32At d (unitPos + 4 * phnmr + 4 * j)
  let dgunit := (List.range dgnmr).map fun j => u32At d (unitPos + 4 * (phnmr + annmr) + 4 * j)
  let fnom := u16At d (unitPos + 4 * (phnmr + annmr + dgnmr))
  let cfgCnt := u16At d (unitPos + 4 * (phnmr + annmr + dgnmr) + 2)
  let currentPos := unitPos + 4 * (phnmr + annmr + dgnmr) + 4
  let chnamPhasor := (List.range phnmr).map fun j =>
    trimSpace ((d.drop (channelPos + 16 * j)).take 16)
  let chnamAnalog := (List.range annmr).map fun j =>
    trimSpace ((d.drop (channelPos + 16 * phnmr + 16 * j)).take 16)
  let chnamDigital := (List.range (16 * dgnmr)).map fun j =>
    trimSpace ((d.drop (channelPos + 16 * (phnmr + annmr) + 16 * j)).take 16)
  .ok ({ stn := trimSpace stnBytes, idCode := idCode, format := format, phnmr := phnmr,
         annmr := annmr, dgnmr := dgnmr, chnamPhasor := chnamPhasor,
         chnamAnalog := chnamAnalog, chnamDigital := chnamDigital, phunit := phunit,
         anunit := anunit, dgunit := dgunit, fnom := fnom, cfgCnt := cfgCnt, stat := 0,
         phasorValues := List.replicate phnmr (0, 0),
         analogValues := List.replicate annmr 0,
         digitalValues := List.replicate dgnmr (List.replicate 16 false),
         freq := 0, dfreq := 0 }, currentPos)

/-- Parse n station blocks starting at pos. -/
def unpackStations (d : List Nat) : Nat → Nat → Except PErr (List PMUStation × Nat)
  | 0, pos => .ok ([], pos)
  | n + 1, pos =>
    match unpackPMUStation d pos with
    | .error e => .error e
    | .ok (p, pos2) =>
      match unpackStations d n pos2 with
      | .error e => .error e
      | .ok (ps, pos3) => .ok (p :: ps, pos3)

/-- ConfigFrame.Unpack: length and declared-size checks, header reads,
station-count sanity check, station blocks, data rate, absolute seek to
FrameSize-2 for the CHK read, CRC comparison over data[:FrameSize-2]. -/
def configUnpack (d : List Nat) : Except PErr ConfigFrame :=
  if d.length < 24 then .error .invalidSize else
  let sync := u16At d 0
  let fsize := u16At d 2
  if fsize < 24 then .error .invalidSize else
  let idCode := u16At d 4
  let soc := u32At d 6
  let fracSec := u32At d 10
  let timeBase := u32At d 14
  let numPMU := u16At d 18
  if 1000 < numPMU then .error .invalidSize else
  match unpackStations d numPMU 20 with
  | .error e => .error e
  | .ok (stations, pos) =>
    if d.length < pos + 2 then .error .readErr else
    let dataRate := i16At d pos
    if d.length < fsize then .error .readErr else
    let chk := u16At d (fsize - 2)
    if CalcCRC (d.take (fsize - 2)) = chk then
      .ok { base := { sync := sync, frameSize := fsize, idCode := idCode, soc := soc,
                      fracSec := fracSec, chk := chk },
            timeBase := timeBase, numPMU := numPMU, dataRate := dataRate,
            pmuStationList := stations }
    else .error .crcFailed

/-- cmplx.Abs of a phasor held as a (re, im) pair. -/
noncomputable def rabs (z : ℝ × ℝ) : ℝ := Real.sqrt (z.1 ^ 2 + z.2 ^ 2)

/-- cmplx.Phase of a phasor held as a (re, im) pair: the atan2 angle in
(-π, π]. -/
noncomputable def rarg (z : ℝ × ℝ) : ℝ := Complex.arg ⟨z.1, z.2⟩

/-- Go's conversion of an (in-range) float to an integer type: truncation
toward zero.  The conversion of an out-of-range value is unspecified in Go;
theorems about integer encodings therefore carry in-range hypotheses. -/
noncomputable def gotrunc (x : ℝ) : Int := if 0 ≤ x then ⌊x⌋ else -⌊-x⌋

/-- One payload word of a Data frame.  Byte serialisation of the numeric
payload is abstracted into typed words of known width: u16w (2 bytes),
i16w (2 bytes), f32w (4 bytes).  An f32w carries the idealised real value
written (32-bit float conversion modelled as exact). -/
inductive PWord where
  | u16w (v : Nat)
  | i16w (v : Int)
  | f32w (v : ℝ)

/-- The two words DataFrame.Pack writes for phasor channel j, per the
station's format bits: float polar (magnitude, phase), float rectangular
(re, im), integer polar (uint16 magnitude*1e5/factor, int16 angle*1e4),
integer rectangular (int16 component*1e5/factor each). -/
noncomputable def phasorPackWords (p : PMUStation) (j : Nat) : List PWord :=
  let z := p.phasorValues.getD j (0, 0)
  if formatPhasorType p then
    if formatCoord p then [.f32w (rabs z), .f32w (rarg z)]
    else [.f32w z.1, .f32w z.2]
  else
    if formatCoord p then
      [.u16w (gotrunc (rabs z * 100000 / (getPhasorFactor p j : ℝ))).toNat,
       .i16w (gotrunc (rarg z * 10000))]
    else
      [.i16w (gotrunc (z.1 * 100000 / (getPhasorFactor p j : ℝ))),
       .i16w (gotrunc (z.2 * 100000 / (getPhasorFactor p j : ℝ)))]

/-- Phasor words for channels j, j+1, ... (count many). -/
noncomputable def packPhasors (p : PMUStation) : Nat → Nat → List PWord
  | _, 0 => []
  | j, n + 1 => phasorPackWords p j ++ packPhasors p (j + 1) n

/-- The freq/dfreq words: two floats, or int16 (freq-nominal)*1000 and
int16 dfreq*100. -/
noncomputable def freqPackWords (p : PMUStation) : List PWord :=
  if formatFreqType p then [.f32w p.freq, .f32w p.dfreq]
  else [.i16w (gotrunc ((p.freq - getNominalFrequency p) * 1000)),
        .i16w (gotrunc (p.dfreq * 100))]

/-- The analog word for channel j: one float or one int16. -/
noncomputable def analogPackWords (p : PMUStation) (j : Nat) : List PWord :=
  if formatAnalogType p then [.f32w (p.analogValues.getD j 0)]
  else [.i16w (gotrunc (p.analogValues.getD j 0))]

/-- Analog words for channels j, j+1, ... (count many). -/
noncomputable def packAnalogs (p : PMUStation) : Nat → Nat → List PWord
  | _, 0 => []
  | j, n + 1 => analogPackWords p j ++ packAnalogs p (j + 1) n

/-- The 16-bit word for one digital channel group: bit k set when channel
k of the word is true. -/
def bitsToWord (bs : List Bool) : Nat :=
  (List.range 16).foldl (fun acc k => if bs.getD k false then acc ||| (1 <<< k) else acc) 0

/-- Digital words for groups j, j+1, ... (count many). -/
def packDigitals (p : PMUStation) : Nat → Nat → List PWord
  | _, 0 => []
  | j, n + 1 => .u16w (bitsToWord (p.digitalValues.getD j [])) :: packDigitals p (j + 1) n

/-- The payload words DataFrame.Pack writes for one station: STAT, the
phasors, freq/dfreq, the analog values, the digital words. -/
noncomputable def stationPackWords (p : PMUStation) : List PWord :=
  .u16w p.stat ::
    (packPhasors p 0 p.phnmr ++ freqPackWords p ++ packAnalogs p 0 p.annmr ++
      packDigitals p 0 p.dgnmr)

/-- The full Data payload: the stations' word blocks in directory order. -/
noncomputable def dataPackWords (cfg : ConfigFrame) : List PWord :=
  (cfg.pmuStationList.map stationPackWords).flatten

/-- DataFrame.Unpack of phasor channel j, per the station's format bits:
the inverse readings, with cmplx.Rect(r, θ) = (r cos θ, r sin θ) for the
polar modes. -/
noncomputable def phasorUnpackWord (p : PMUStation) (j : Nat) (ws : List PWord) :
    Option ((ℝ × ℝ) × List PWord) :=
  if formatPhasorType p then
    match ws with
    | .f32w v1 :: .f32w v2 :: rest =>
      if formatCoord p then some ((v1 * Real.cos v2, v1 * Real.sin v2), rest)
      else some ((v1, v2), rest)
    | _ => none
  else
    if formatCoord p then
      match ws with
      | .u16w mag :: .i16w ang :: rest =>
        let magF : ℝ := (mag : ℝ) * (getPhasorFactor p j : ℝ) / 100000
        let angF : ℝ := (ang : ℝ) / 10000
        some ((magF * Real.cos angF, magF * Real.sin angF), rest)
      | _ => none
    else
      match ws with
      | .i16w re :: .i16w im :: rest =>
        some (((re : ℝ) * (getPhasorFactor p j : ℝ) / 100000,
               (im : ℝ) * (getPhasorFactor p j : ℝ) / 100000), rest)
      | _ => none

/-- Unpack count phasors starting at channel j. -/
noncomputable def unpackPhasors (p : PMUStation) : Nat → Nat → List PWord →
    Option (List (ℝ × ℝ) × List PWord)
  | _, 0, ws => some ([], ws)
  | j, n + 1, ws =>
    match phasorUnpackWord p j ws with
    | none => none
    | some (z, ws2) =>
      match unpackPhasors p (j + 1) n ws2 with
      | none => none
      | some (zs, ws3) => some (z :: zs, ws3)

/-- Unpack freq/dfreq: two floats, or nominal + int16/1000 and int16/100. -/
noncomputable def freqUnpackWords (p : PMUStation) (ws : List PWord) :
    Option ((ℝ × ℝ) × List PWord) :=
  if formatFreqType p then
    match ws with
    | .f32w a :: .f32w b :: rest => some ((a, b), rest)
    | _ => none
  else
    match ws with
    | .i16w a :: .i16w b :: rest =>
      some ((getNominalFrequency p + (a : ℝ) / 1000, (b : ℝ) / 100), rest)
    | _ => none

/-- Unpack count analog values. -/
noncomputable def unpackAnalogs (p : PMUStation) : Nat → List PWord →
    Option (List ℝ × List PWord)
  | 0, ws => some ([], ws)
  | n + 1, ws =>
    if formatAnalogType p then
      match ws with
      | .f32w v :: rest =>
        match unpackAnalogs p n rest with
        | none => none
        | some (vs, ws2) => some (v :: vs, ws2)
      | _ => none
    else
      match ws with
      | .i16w v :: rest =>
        match unpackAnalogs p n rest with
        | none => none
        | some (vs, ws2) => some (((v : ℝ)) :: vs, ws2)
      | _ => none

/-- The 16 booleans read back from one digital word: bit k of the word. -/
def wordToBits (w : Nat) : List Bool := (List.range 16).map fun k => w.testBit k

/-- Unpack count digital words. -/
def unpackDigitals : Nat → List PWord → Option (List (List Bool) × List PWord)
  | 0, ws => some ([], ws)
  | n + 1, ws =>
    match ws with
    | .u16w w :: rest =>
      match unpackDigitals n rest with
      | none => none
      | some (bs, ws2) => some (wordToBits w :: bs, ws2)
    | _ => none

/-- DataFrame.Unpack of one station's payload words: STAT, phasors,
freq/dfreq, analog values, digital words, written into the station. -/
noncomputable def stationUnpackWords (p : PMUStation) (ws : List PWord) :
    Option (PMUStation × List PWord) :=
  match ws with
  | .u16w stat :: ws1 =>
    match unpackPhasors p 0 p.phnmr ws1 with
    | none => none
    | some (phs, ws2) =>
      match freqUnpackWords p ws2 with
      | none => none
      | some ((f, df), ws3) =>
        match unpackAnalogs p p.annmr ws3 with
        | none => none
        | some (ans, ws4) =>
          match unpackDigitals p.dgnmr ws4 with
          | none => none
          | some (digs, ws5) =>
            let p2 := { p with stat := stat, phasorValues := phs, freq := f, dfreq := df,
                               analogValues := ans, digitalValues := digs }
            some (p2, ws5)
  | _ => none

/-- Unpack the stations of the associated directory in order (trailing
words, like trailing bytes before the CRC in the source, are ignored). -/
noncomputable def stationsUnpackWords : List PMUStation → List PWord →
    Option (List PMUStation)
  | [], _ => some []
  | p :: ps, ws =>
    match stationUnpackWords p ws with
    | none => none
    | some (p2, ws2) =>
      match stationsUnpackWords ps ws2 with
      | none => none
      | some rest => some (p2 :: rest)

/-- Word-level DataFrame.Unpack against a directory: the directory with
every station's live values overwritten by the payload. -/
noncomputable def dataUnpackWords (cfg : ConfigFrame) (ws : List PWord) :
    Option ConfigFrame :=
  match stationsUnpackWords cfg.pmuStationList ws with
  | none => none
  | some sts => some { cfg with pmuStationList := sts }

/-- The rational value of an IEEE-754 binary32 bit pattern, as read back by
binary.Read into a float32 (then widened exactly to float64 by Go's
conversion).  Infinities and NaN (exponent 255) are outside the model and
mapped to 0; no claim depends on them. -/
def f32FromBitsQ (w : Nat) : ℚ :=
  let s : ℚ := if w.testBit 31 then -1 else 1
  let e : ℕ := w >>> 23 &&& 255
  let m : ℕ := w &&& (2 ^ 23 - 1)
  if e = 0 then s * (m : ℚ) / 2 ^ 149
  else if e = 255 then 0
  else s * ((2 : ℚ) ^ 23 + (m : ℚ)) * (2 : ℚ) ^ ((e : ℤ) - 150)

/-- Byte-level read of the phasor channels j, j+1, ... of one station
inside DataFrame.Unpack, advancing the byte position; every io read
failure is collapsed into readErr. -/
noncomputable def bytesUnpackPhasors (p : PMUStation) (d : List Nat) :
    Nat → Nat → Nat → Except PErr (List (ℝ × ℝ) × Nat)
  | _, 0, pos => .ok ([], pos)
  | j, n + 1, pos =>
    if formatPhasorType p then
      if d.length < pos + 8 then .error .readErr else
      let v1 : ℝ := (f32FromBitsQ (u32At d pos) : ℚ)
      let v2 : ℝ := (f32FromBitsQ (u32At d (pos + 4)) : ℚ)
      let z := if formatCoord p then (v1 * Real.cos v2, v1 * Real.sin v2) else (v1, v2)
      match bytesUnpackPhasors p d (j + 1) n (pos + 8) with
      | .error e => .error e
      | .ok (zs, pos2) => .ok (z :: zs, pos2)
    else
      if d.length < pos + 4 then .error .readErr else
      let z :=
        if formatCoord p then
          let magF : ℝ := (u16At d pos : ℝ) * (getPhasorFactor p j : ℝ) / 100000
          let angF : ℝ := ((i16At d (pos + 2) : ℤ) : ℝ) / 10000
          (magF * Real.cos angF, magF * Real.sin angF)
        else
          (((i16At d pos : ℤ) : ℝ) * (getPhasorFactor p j : ℝ) / 100000,
           ((i16At d (pos + 2) : ℤ) : ℝ) * (getPhasorFactor p j : ℝ) / 100000)
      match bytesUnpackPhasors p d (j + 1) n (pos + 4) with
      | .error e => .error e
      | .ok (zs, pos2) => .ok (z :: zs, pos2)

/-- Byte-level read of freq/dfreq. -/
noncomputable def bytesUnpackFreq (p : PMUStation) (d : List Nat) (pos : Nat) :
    Except PErr ((ℝ × ℝ) × Nat) :=
  if formatFreqType p then
    if d.length < pos + 8 then .error .readErr else
    .ok (((f32FromBitsQ (u32At d pos) : ℚ), ((f32FromBitsQ (u32At d (pos + 4)) : ℚ) : ℝ)),
      pos + 8)
  else
    if d.length < pos + 4 then .error .readErr else
    .ok ((getNominalFrequency p + ((i16At d pos : ℤ) : ℝ) / 1000,
          ((i16At d (pos + 2) : ℤ) : ℝ) / 100), pos + 4)

/-- Byte-level read of count analog values. -/
noncomputable def bytesUnpackAnalogs (p : PMUStation) (d : List Nat) :
    Nat → Nat → Except PErr (List ℝ × Nat)
  | 0, pos => .ok ([], pos)
  | n + 1, pos =>
    if formatAnalogType p then
      if d.length < pos + 4 then .error .readErr else
      match bytesUnpackAnalogs p d n (pos + 4) with
      | .error e => .error e
      | .ok (vs, pos2) => .ok (((f32FromBitsQ (u32At d pos) : ℚ) : ℝ) :: vs, pos2)
    else
      if d.length < pos + 2 then .error .readErr else
      match bytesUnpackAnalogs p d n (pos + 2) with
      | .error e => .error e
      | .ok (vs, pos2) => .ok (((i16At d pos : ℤ) : ℝ) :: vs, pos2)

/-- Byte-level read of count digital words. -/
def bytesUnpackDigitals (d : List Nat) : Nat → Nat → Except PErr (List (List Bool) × Nat)
  | 0, pos => .ok ([], pos)
  | n + 1, pos =>
    if d.length < pos + 2 then .error .readErr else
    match bytesUnpackDigitals d n (pos + 2) with
    | .error e => .error e
    | .ok (bs, pos2) => .ok (wordToBits (u16At d pos) :: bs, pos2)

/-- Byte-level read of one station's Data payload: STAT, phasors,
freq/dfreq, analog values, digital words.  (The source mutates the station
field by field; a mid-station read failure leaving a partially updated
station is not observable by any claim and is modelled by returning the
pre-parse station together with the error.) -/
noncomputable def stationUnpackBytes (p : PMUStation) (d : List Nat) (pos : Nat) :
    Except PErr (PMUStation × Nat) :=
  if d.length < pos + 2 then .error .readErr else
  let stat := u16At d pos
  match bytesUnpackPhasors p d 0 p.phnmr (pos + 2) with
  | .error e => .error e
  | .ok (phs, pos2) =>
    match bytesUnpackFreq p d pos2 with
    | .error e => .error e
    | .ok ((f, df), pos3) =>
      match bytesUnpackAnalogs p d p.annmr pos3 with
      | .error e => .error e
      | .ok (ans, pos4) =>
        match bytesUnpackDigitals d p.dgnmr pos4 with
        | .error e => .error e
        | .ok (digs, pos5) =>
          let p2 := { p with stat := stat, phasorValues := phs, freq := f, dfreq := df,
                             analogValues := ans, digitalValues := digs }
          .ok (p2, pos5)

/-- Byte-level read of every station of the directory, in order;
already-parsed stations keep their new values even when a later station's
read fails (in-place mutation). -/
noncomputable def stationsUnpackBytes : List PMUStation → List Nat → Nat →
    List PMUStation × Except PErr Nat
  | [], _, pos => ([], .ok pos)
  | p :: ps, d, pos =>
    match stationUnpackBytes p d pos with
    | .error e => (p :: ps, .error e)
    | .ok (p2, pos2) =>
      let r := stationsUnpackBytes ps d pos2
      (p2 :: r.1, r.2)

/-- DataFrame.Unpack.  A nil associated directory is a parameter error
before anything is read.  Otherwise: length and declared-size checks,
header reads, the per-station payload reads (which OVERWRITE the
directory's live values while parsing), then the absolute seek to
FrameSize-2, the CHK read, and only then the CRC comparison over
data[:FrameSize-2].  The first component is the directory state after the
call (the source mutates it in place), the second the returned header or
error. -/
noncomputable def dataUnpack (cfgOpt : Option ConfigFrame) (d : List Nat) :
    Option ConfigFrame × Except PErr C37118 :=
  match cfgOpt with
  | none => (none, .error .invalidParameter)
  | some cfg =>
    if d.length < 16 then (some cfg, .error .invalidSize) else
    let sync := u16At d 0
    let fsize := u16At d 2
    if fsize < 16 then (some cfg, .error .invalidSize) else
    let idCode := u16At d 4
    let soc := u32At d 6
    let fracSec := u32At d 10
    let r := stationsUnpackBytes cfg.pmuStationList d 14
    let cfg2 := { cfg with pmuStationList := r.1 }
    match r.2 with
    | .error e => (some cfg2, .error e)
    | .ok _ =>
      if d.length < fsize then (some cfg2, .error .readErr) else
      let chk := u16At d (fsize - 2)
      if CalcCRC (d.take (fsize - 2)) = chk then
        (some cfg2, .ok { sync := sync, frameSize := fsize, idCode := idCode, soc := soc,
                          fracSec := fracSec, chk := chk })
      else (some cfg2, .error .crcFailed)

/-- The value UnpackFrame returns: a closed variant over the five decoded
frame kinds (the Data variant carries the returned header fields and the
updated directory). -/
inductive Frame where
  | dataF (hdr : C37118) (cfg : ConfigFrame)
  | headerF (h : HeaderFrame)
  | cfg1F (c : ConfigFrame)
  | cfg2F (c : ConfigFrame)
  | cmdF (c : CommandFrame)

/-- UnpackFrame: GetFrameType, then dispatch on the 3-bit type value:
0 Data (parameter error when no directory is known), 1 Header, 2 Config-v1,
3 Config-v2, 4 Command, 5 Config-v3 (not implemented), others invalid. -/
noncomputable def UnpackFrame (d : List Nat) (cfg : Option ConfigFrame) :
    Except PErr Frame :=
  match getFrameType d with
  | .error e => .error e
  | .ok 0 =>
    match cfg with
    | none => .error .invalidParameter
    | some c =>
      match dataUnpack (some c) d with
      | (some c2, .ok hdr) => .ok (.dataF hdr c2)
      | (_, .error e) => .error e
      | (none, .ok _) => .error .invalidParameter
  | .ok 1 => (headerUnpack d).map .headerF
  | .ok 2 => (configUnpack d).map .cfg1F
  | .ok 3 => (configUnpack d).map .cfg2F
  | .ok 4 => (cmdUnpack d).map .cmdF
  | .ok 5 => .error .notImpl
  | .ok _ => .error .invalidFrame

/-- One loop of PDC.ReadFrame: keep issuing socket reads (each read hands
back the next chunk of the stream) until at least target bytes have
accumulated; none models a read error / end of stream. -/
def accumReads (target : Nat) : List (List Nat) → List Nat →
    Option (List Nat × List (List Nat))
  | cs, acc =>
    if target ≤ acc.length then some (acc, cs)
    else
      match cs with
      | [] => none
      | c :: cs2 => accumReads target cs2 (acc ++ c)

/-- PDC.ReadFrame on a chunked input stream: accumulate at least 4 bytes,
parse the declared size, accumulate at least that many bytes, and hand
buffer[:frameSize] to the decoder; bytes accumulated beyond the declared
size are DISCARDED (the next call starts from the remaining chunks with an
empty buffer). -/
def pdcReadFrame (chunks : List (List Nat)) : Option (List Nat × List (List Nat)) :=
  match accumReads 4 chunks [] with
  | none => none
  | some (acc, rest) =>
    let fsize := u16At acc 2
    match accumReads fsize rest acc with
    | none => none
    | some (acc2, rest2) => some (acc2.take fsize, rest2)

/-- n successive PDC.ReadFrame calls: the byte strings handed to
UnpackFrame (none for a read error; once the stream errors, every later
call errors too). -/
def pdcReadFrames : Nat → List (List Nat) → List (Option (List Nat))
  | 0, _ => []
  | n + 1, cs =>
    match pdcReadFrame cs with
    | none => List.replicate (n + 1) none
    | some (f, rest) => some f :: pdcReadFrames n rest

/-- The failing input of claim C2: a fresh Command frame (default
FrameSize 18) carrying a START code and a one-byte extension payload. -/
def c2Frame : CommandFrame :=
  { base := { sync := 0xAA41, frameSize := 18, idCode := 7, soc := 0, fracSec := 0, chk := 0 },
    cmd := 2, extraFrame := [0] }

/-- A second concrete Command frame (STOP), used to exercise the stream
reader on two distinct frames. -/
def cmdFrameStop : CommandFrame :=
  { base := { sync := 0xAA41, frameSize := 18, idCode := 0, soc := 0, fracSec := 0, chk := 0 },
    cmd := 1, extraFrame := [] }

/-- A one-station directory (all-integer formats, no channels) used to
demonstrate the non-atomic Data decode. -/
def c10Cfg : ConfigFrame :=
  { base := { sync := 0xAA31, frameSize := 0, idCode := 7, soc := 0, fracSec := 0, chk := 0 },
    timeBase := 1000000, numPMU := 1, dataRate := 15,
    pmuStationList := [dummyStation] }

/-- A 22-byte Data frame for c10Cfg whose payload parses (STAT 5, zero
freq deviation) but whose trailing checksum field is wrong. -/
def c10Bytes : List Nat :=
  [0xAA, 0x01, 0, 22, 0, 7, 0, 0, 0, 0, 0, 0, 0, 0, 0, 5, 0, 0, 0, 0, 9, 9]

/-- The station of spec scenario (3): one phasor channel, integer
rectangular mode, scale factor 915527, source value (3.0, 4.0). -/
def c7Station : PMUStation :=
  { stn := [], idCode := 1, format := 0, phnmr := 1, annmr := 0, dgnmr := 0,
    chnamPhasor := [[0x56, 0x41]], chnamAnalog := [], chnamDigital := [],
    phunit := [915527], anunit := [], dgunit := [], fnom := 0, cfgCnt := 0, stat := 0,
    phasorValues := [(3, 4)], analogValues := [], digitalValues := [], freq := 60, dfreq := 0 }

/-- The one-station directory around c7Station. -/
def c7Cfg : ConfigFrame :=
  { base := { sync := 0xAA31, frameSize := 0, idCode := 7, soc := 0, fracSec := 0, chk := 0 },
    timeBase := 1000000, numPMU := 1, dataRate := 15, pmuStationList := [c7Station] }

/-- Well-formedness of a station's live-value arrays: the counts match the
channel counts (the Go code indexes the arrays up to the counts). -/
def StationWF (p : PMUStation) : Prop :=
  p.phasorValues.length = p.phnmr ∧ p.analogValues.length = p.annmr ∧
  p.digitalValues.length = p.dgnmr ∧ ∀ bs ∈ p.digitalValues, bs.length = 16

/-- The integer-mode encodings' validity domain: scale factors nonzero and
every scaled value inside its 16-bit range (Go's conversion of an
out-of-range float to an integer type is unspecified). -/
def StationInRange (p : PMUStation) : Prop :=
  (formatPhasorType p = false → formatCoord p = false → ∀ j < p.phnmr,
    1 ≤ getPhasorFactor p j ∧
    |(p.phasorValues.getD j (0, 0)).1 * 100000 / (getPhasorFactor p j : ℝ)| < 32768 ∧
    |(p.phasorValues.getD j (0, 0)).2 * 100000 / (getPhasorFactor p j : ℝ)| < 32768) ∧
  (formatPhasorType p = false → formatCoord p = true → ∀ j < p.phnmr,
    1 ≤ getPhasorFactor p j ∧
    rabs (p.phasorValues.getD j (0, 0)) * 100000 / (getPhasorFactor p j : ℝ) < 65536) ∧
  (formatFreqType p = false →
    |(p.freq - getNominalFrequency p) * 1000| < 32768 ∧ |p.dfreq * 100| < 32768) ∧
  (formatAnalogType p = false → ∀ j < p.annmr, |p.analogValues.getD j 0| < 32768)

/-- Round-trip accuracy of phasor channel j: exact in float mode; within
the scale quantization step factor/1e5 per component in integer
rectangular mode; within factor/1e5 plus the angle quantization
contribution (magnitude times the 1e-4 rad step) in integer polar mode. -/
def PhasorClose (p : PMUStation) (j : Nat) (z zr : ℝ × ℝ) : Prop :=
  (formatPhasorType p = true → zr = z) ∧
  (formatPhasorType p = false → formatCoord p = false →
    |zr.1 - z.1| ≤ (getPhasorFactor p j : ℝ) / 100000 ∧
    |zr.2 - z.2| ≤ (getPhasorFactor p j : ℝ) / 100000) ∧
  (formatPhasorType p = false → formatCoord p = true →
    |zr.1 - z.1| ≤ (getPhasorFactor p j : ℝ) / 100000 + rabs z / 10000 ∧
    |zr.2 - z.2| ≤ (getPhasorFactor p j : ℝ) / 100000 + rabs z / 10000)

/-- Round-trip accuracy of an unpacked station against its source: STAT
and digital words exact; every phasor within PhasorClose; freq within
1/1000 Hz and ROCOF within 1/100 in integer mode, exact in float mode;
every analog within 1 in integer mode, exact in float mode. -/
def StationRecovers (p pr : PMUStation) : Prop :=
  pr.stat = p.stat ∧
  pr.phasorValues.length = p.phnmr ∧
  (∀ j < p.phnmr,
    PhasorClose p j (p.phasorValues.getD j (0, 0)) (pr.phasorValues.getD j (0, 0))) ∧
  (formatFreqType p = true → pr.freq = p.freq ∧ pr.dfreq = p.dfreq) ∧
  (formatFreqType p = false → |pr.freq - p.freq| ≤ 1 / 1000 ∧ |pr.dfreq - p.dfreq| ≤ 1 / 100) ∧
  pr.analogValues.length = p.annmr ∧
  (formatAnalogType p = true → ∀ j < p.annmr,
    pr.analogValues.getD j 0 = p.analogValues.getD j 0) ∧
  (formatAnalogType p = false → ∀ j < p.annmr,
    |pr.analogValues.getD j 0 - p.analogValues.getD j 0| ≤ 1) ∧
  pr.digitalValues = p.digitalValues

/-! ## Theorems -/

/-- C2: a Command frame with a non-empty ExtraFrame and the constructor's
default FrameSize 18 (the source never recomputes the size in
CommandFrame.Pack) encodes to 19 bytes while its declared size field still
reads 18. -/
theorem c2_command_size_field_mismatch :
    (cmdPack c2Frame).length = 19 ∧ u16At (cmdPack c2Frame) 2 = 18 ∧ (19 : Nat) ≠ 18 := by
  refine ⟨by decide, by decide, by decide⟩

/-- C4: a buffer whose frame-type bits select Data decoded by UnpackFrame
with no known directory yields the parameter error, and DataFrame.Unpack
itself with a nil associated directory yields the parameter error before
reading anything. -/
theorem c4_data_decode_requires_directory :
    (∀ d : List Nat, 2 ≤ d.length → d.getD 0 0 = 0xAA →
      (d.getD 1 0 >>> 4) &&& 7 = 0 → UnpackFrame d none = .error .invalidParameter) ∧
    (∀ d : List Nat, dataUnpack none d = (none, .error .invalidParameter)) := by
  constructor
  · intro d hlen hsync htype
    simp only [UnpackFrame, getFrameType, Nat.not_lt.mpr hlen, if_false, hsync, htype,
      ite_false, ite_true]
    simp [hsync]
  · intro d
    rfl

/-- C4 witness: a 4-byte Data-typed buffer decoded without a directory
yields the parameter error. -/
theorem c4_data_decode_requires_directory_witness :
    UnpackFrame [0xAA, 0x01, 0, 16] none = .error .invalidParameter :=
  c4_data_decode_requires_directory.1 [0xAA, 0x01, 0, 16] (by decide) (by decide) (by decide)

/-- C5 counterexample: PDC.ReadFrame drops the bytes a read returns beyond
the current frame.  Two well-formed Command frames delivered in one single
read decode to the first frame followed by a read error, while the unsplit
two-read delivery yields both frames. -/
theorem c5_read_spanning_frames_loses_data :
    pdcReadFrames 2 [cmdPack newCommandFrame ++ cmdPack cmdFrameStop] =
      [some (cmdPack newCommandFrame), none] ∧
    pdcReadFrames 2 [cmdPack newCommandFrame, cmdPack cmdFrameStop] =
      [some (cmdPack newCommandFrame), some (cmdPack cmdFrameStop)] := by
  refine ⟨by decide, by decide⟩

/-- C8 counterexample: a 3-byte buffer starting with the sync byte does
not always produce a size error: type bits 5 (Config-v3) produce the
not-implemented error. -/
theorem c8_three_byte_cfg3_not_size_error :
    UnpackFrame [0xAA, 0x51, 0] none = .error .notImpl ∧ PErr.notImpl ≠ PErr.invalidSize := by
  exact ⟨rfl, by decide⟩

/-- C6: after the sync check, UnpackFrame dispatches on the 3-bit type
field of the second byte: 0 Data (parameter error without a directory,
else the Data decode), 1 Header, 2 Config-v1, 3 Config-v2, 4 Command,
5 the not-implemented error, 6-7 the invalid-frame error; a wrong leading
byte is an invalid-frame error. -/
theorem c6_frame_kind_dispatch (d : List Nat) (cfg : Option ConfigFrame)
    (hlen : 2 ≤ d.length) :
    (d.getD 0 0 ≠ 0xAA → UnpackFrame d cfg = .error .invalidFrame) ∧
    (d.getD 0 0 = 0xAA →
      ((d.getD 1 0 >>> 4) &&& 7 = 0 → cfg = none →
        UnpackFrame d cfg = .error .invalidParameter) ∧
      (∀ c e, (d.getD 1 0 >>> 4) &&& 7 = 0 → cfg = some c →
        (dataUnpack (some c) d).2 = .error e → UnpackFrame d cfg = .error e) ∧
      (∀ c c2 hdr, (d.getD 1 0 >>> 4) &&& 7 = 0 → cfg = some c →
        dataUnpack (some c) d = (some c2, .ok hdr) →
        UnpackFrame d cfg = .ok (.dataF hdr c2)) ∧
      ((d.getD 1 0 >>> 4) &&& 7 = 1 → UnpackFrame d cfg = (headerUnpack d).map Frame.headerF) ∧
      ((d.getD 1 0 >>> 4) &&& 7 = 2 → UnpackFrame d cfg = (configUnpack d).map Frame.cfg1F) ∧
      ((d.getD 1 0 >>> 4) &&& 7 = 3 → UnpackFrame d cfg = (configUnpack d).map Frame.cfg2F) ∧
      ((d.getD 1 0 >>> 4) &&& 7 = 4 → UnpackFrame d cfg = (cmdUnpack d).map Frame.cmdF) ∧
      ((d.getD 1 0 >>> 4) &&& 7 = 5 → UnpackFrame d cfg = .error .notImpl) ∧
      (6 ≤ (d.getD 1 0 >>> 4) &&& 7 → UnpackFrame d cfg = .error .invalidFrame)) := by
  constructor
  · intro hne
    have hg0 : getFrameType d = .error .invalidFrame := by
      unfold getFrameType
      rw [if_neg (Nat.not_lt.mpr hlen), if_pos hne]
    simp only [UnpackFrame, hg0]
  · intro hsync
    have hg : getFrameType d = .ok ((d.getD 1 0 >>> 4) &&& 7) := by
      unfold getFrameType
      rw [if_neg (Nat.not_lt.mpr hlen), if_neg (fun hK => hK hsync)]
    refine ⟨?_, ?_, ?_, ?_, ?_, ?_, ?_, ?_, ?_⟩
    · intro ht hc
      simp only [UnpackFrame, hg, ht, hc]
    · intro c e ht hc hd
      rcases hdp : dataUnpack (some c) d with ⟨c1, r⟩
      rw [hdp] at hd
      simp only at hd
      subst hd
      simp only [UnpackFrame, hg, ht, hc, hdp]
    · intro c c2 hdr ht hc hd
      simp only [UnpackFrame, hg, ht, hc, hd]
    · intro ht
      simp only [UnpackFrame, hg, ht]
    · intro ht
      simp only [UnpackFrame, hg, ht]
    · intro ht
      simp only [UnpackFrame, hg, ht]
    · intro ht
      simp only [UnpackFrame, hg, ht]
    · intro ht
      simp only [UnpackFrame, hg, ht]
    · intro ht
      have h7 : (d.getD 1 0 >>> 4) &&& 7 ≤ 7 := Nat.and_le_right
      have h67 : (d.getD 1 0 >>> 4) &&& 7 = 6 ∨ (d.getD 1 0 >>> 4) &&& 7 = 7 := by omega
      rcases h67 with h | h <;> simp only [UnpackFrame, hg, h]

/-- C6 witness: a packed START command dispatches to the Command decoder. -/
theorem c6_frame_kind_dispatch_witness :
    UnpackFrame (cmdPack newCommandFrame) none =
      (cmdUnpack (cmdPack newCommandFrame)).map Frame.cmdF :=
  (((c6_frame_kind_dispatch (cmdPack newCommandFrame) none
    (by decide)).2 (by decide)).2.2.2.2.2.2).1 (by decide)

/-- C8 (amended): every decoder rejects an undersized buffer and a
declared size below its kind's minimum with the size error (Command 18,
Header 16, Config 24, Data 16 bytes — the Data decode given a directory),
and a 3-byte buffer starting with 0xAA yields the size error whenever its
type bits select Header, Config-v1/v2, Command, or Data with a known
directory. -/
theorem c8_minimum_sizes :
    (∀ d : List Nat, d.length < 18 → cmdUnpack d = .error .invalidSize) ∧
    (∀ d : List Nat, 18 ≤ d.length → u16At d 2 < 18 → cmdUnpack d = .error .invalidSize) ∧
    (∀ d : List Nat, d.length < 16 → headerUnpack d = .error .invalidSize) ∧
    (∀ d : List Nat, 16 ≤ d.length → u16At d 2 < 16 → headerUnpack d = .error .invalidSize) ∧
    (∀ d : List Nat, d.length < 24 → configUnpack d = .error .invalidSize) ∧
    (∀ d : List Nat, 24 ≤ d.length → u16At d 2 < 24 → configUnpack d = .error .invalidSize) ∧
    (∀ (cfg : ConfigFrame) (d : List Nat), d.length < 16 →
      dataUnpack (some cfg) d = (some cfg, .error .invalidSize)) ∧
    (∀ (cfg : ConfigFrame) (d : List Nat), 16 ≤ d.length → u16At d 2 < 16 →
      dataUnpack (some cfg) d = (some cfg, .error .invalidSize)) ∧
    (∀ d : List Nat, d.length = 3 → d.getD 0 0 = 0xAA →
      (∀ cfg, 1 ≤ (d.getD 1 0 >>> 4) &&& 7 → (d.getD 1 0 >>> 4) &&& 7 ≤ 4 →
        UnpackFrame d cfg = .error .invalidSize) ∧
      (∀ c, (d.getD 1 0 >>> 4) &&& 7 = 0 →
        UnpackFrame d (some c) = .error .invalidSize)) := by
  refine ⟨?_, ?_, ?_, ?_, ?_, ?_, ?_, ?_, ?_⟩
  · intro d h
    simp only [cmdUnpack, if_pos h]
  · intro d h1 h2
    simp only [cmdUnpack, if_neg (Nat.not_lt.mpr h1), if_pos h2]
  · intro d h
    simp only [headerUnpack, if_pos h]
  · intro d h1 h2
    simp only [headerUnpack, if_neg (Nat.not_lt.mpr h1), if_pos h2]
  · intro d h
    simp only [configUnpack, if_pos h]
  · intro d h1 h2
    simp only [configUnpack, if_neg (Nat.not_lt.mpr h1), if_pos h2]
  · intro cfg d h
    simp only [dataUnpack, if_pos h]
  · intro cfg d h1 h2
    simp only [dataUnpack, if_neg (Nat.not_lt.mpr h1), if_pos h2]
  · intro d hlen3 hsync
    have hlen : 2 ≤ d.length := by omega
    have hc6 := (c6_frame_kind_dispatch d · hlen)
    constructor
    · intro cfg h1 h4
      have harm := (hc6 cfg).2 hsync
      have h1234 : (d.getD 1 0 >>> 4) &&& 7 = 1 ∨ (d.getD 1 0 >>> 4) &&& 7 = 2 ∨
          (d.getD 1 0 >>> 4) &&& 7 = 3 ∨ (d.getD 1 0 >>> 4) &&& 7 = 4 := by omega
      rcases h1234 with h | h | h | h
      · rw [harm.2.2.2.1 h]
        have : headerUnpack d = .error .invalidSize := by
          simp only [headerUnpack, if_pos (show d.length < 16 by omega)]
        rw [this]
        rfl
      · rw [harm.2.2.2.2.1 h]
        have : configUnpack d = .error .invalidSize := by
          simp only [configUnpack, if_pos (show d.length < 24 by omega)]
        rw [this]
        rfl
      · rw [harm.2.2.2.2.2.1 h]
        have : configUnpack d = .error .invalidSize := by
          simp only [configUnpack, if_pos (show d.length < 24 by omega)]
        rw [this]
        rfl
      · rw [harm.2.2.2.2.2.2.1 h]
        have : cmdUnpack d = .error .invalidSize := by
          simp only [cmdUnpack, if_pos (show d.length < 18 by omega)]
        rw [this]
        rfl
    · intro c h0
      have harm := (hc6 (some c)).2 hsync
      exact harm.2.1 c PErr.invalidSize h0 rfl
        (by simp only [dataUnpack, if_pos (show d.length < 16 by omega)])

/-- C8 witness: a 3-byte buffer with Header type bits yields the size
error. -/
theorem c8_minimum_sizes_witness :
    UnpackFrame [0xAA, 0x11, 0] none = .error .invalidSize :=
  ((c8_minimum_sizes.2.2.2.2.2.2.2.2 [0xAA, 0x11, 0] (by decide) (by decide)).1 none
    (by decide) (by decide))


/-- C10: when the per-station payload reads succeed but the trailing
checksum comparison fails, DataFrame.Unpack returns the checksum error
with the associated directory's live values already overwritten by the
corrupt frame's payload — the decode is not atomic on error. -/
theorem c10_data_unpack_not_atomic (cfg : ConfigFrame) (d : List Nat) (pos : Nat)
    (hparse : (stationsUnpackBytes cfg.pmuStationList d 14).2 = .ok pos)
    (hlen : 16 ≤ d.length) (hfs : 16 ≤ u16At d 2) (hfl : u16At d 2 ≤ d.length)
    (hcrc : CalcCRC (d.take (u16At d 2 - 2)) ≠ u16At d (u16At d 2 - 2)) :
    dataUnpack (some cfg) d =
      (some { cfg with pmuStationList := (stationsUnpackBytes cfg.pmuStationList d 14).1 },
       .error .crcFailed) := by
  simp only [dataUnpack, if_neg (Nat.not_lt.mpr hlen), if_neg (Nat.not_lt.mpr hfs)]
  rw [hparse]
  simp only [if_neg (Nat.not_lt.mpr hfl), if_neg hcrc]

/-- C10 witness: a concrete corrupt frame decodes to the checksum error
with the station's STAT already overwritten (0 before, 5 after). -/
theorem c10_data_unpack_not_atomic_witness :
    (stationsUnpackBytes c10Cfg.pmuStationList c10Bytes 14).2 = .ok 20 ∧
    (dataUnpack (some c10Cfg) c10Bytes).2 = .error .crcFailed ∧
    ((dataUnpack (some c10Cfg) c10Bytes).1.map
      fun c => (c.pmuStationList.getD 0 dummyStation).stat) = some 5 ∧
    (c10Cfg.pmuStationList.getD 0 dummyStation).stat = 0 := by
  have h := c10_data_unpack_not_atomic c10Cfg c10Bytes 20 rfl (by decide) (by decide)
    (by decide) (by decide)
  refine ⟨rfl, ?_, ?_, rfl⟩
  · rw [h]
  · rw [h]
    rfl

/-- Shared evaluation for claim C7: packing then unpacking c7Cfg's Data
payload recovers phasor (0, 0) — the source components 3.0 and 4.0 scale
to 3e5/915527 ≈ 0.33 and 4e5/915527 ≈ 0.44, which the int16 conversion
truncates to 0. -/
theorem c7_recovered_phasor_eval :
    ((dataUnpackWords c7Cfg (dataPackWords c7Cfg)).map
      fun c => (c.pmuStationList.getD 0 dummyStation).phasorValues.getD 0 (0, 0)) =
      some ((0 : ℝ), (0 : ℝ)) := by
  have hand : (915527 &&& 16777215 : ℕ) = 915527 := by decide
  have hg0 : gotrunc (0 : ℝ) = 0 := by
    rw [gotrunc, if_pos le_rfl]
    exact Int.floor_zero
  have hg3 : gotrunc ((3 : ℝ) * 100000 / 915527) = 0 := by
    rw [gotrunc, if_pos (by positivity), Int.floor_eq_zero_iff]
    exact ⟨by positivity, by norm_num⟩
  have hg4 : gotrunc ((4 : ℝ) * 100000 / 915527) = 0 := by
    rw [gotrunc, if_pos (by positivity), Int.floor_eq_zero_iff]
    exact ⟨by positivity, by norm_num⟩
  have hpack : dataPackWords c7Cfg = [PWord.u16w 0, PWord.i16w 0, PWord.i16w 0,
      PWord.i16w 0, PWord.i16w 0] := by
    simp [dataPackWords, c7Cfg, c7Station, stationPackWords, packPhasors, phasorPackWords,
      freqPackWords, packAnalogs, packDigitals, formatPhasorType, formatCoord, formatFreqType,
      getPhasorFactor, getNominalFrequency, hand, hg0, hg3, hg4]
  rw [hpack]
  simp [dataUnpackWords, c7Cfg, c7Station, stationsUnpackWords, stationUnpackWords,
    unpackPhasors, phasorUnpackWord, freqUnpackWords, unpackAnalogs, unpackDigitals,
    formatPhasorType, formatCoord, formatFreqType, getPhasorFactor, getNominalFrequency, hand]

/-- C7 counterexample: for the station with one integer-rectangular phasor
channel, scale factor 915527 and source value (3.0, 4.0), the round trip
recovers (0.0, 0.0), which is NOT within 1e-2 of the source. -/
theorem c7_roundtrip_not_within_1e2 :
    ((dataUnpackWords c7Cfg (dataPackWords c7Cfg)).map
      fun c => (c.pmuStationList.getD 0 dummyStation).phasorValues.getD 0 (0, 0)) =
      some ((0 : ℝ), (0 : ℝ)) ∧
    ¬(|(0 : ℝ) - 3| ≤ 1 / 100 ∧ |(0 : ℝ) - 4| ≤ 1 / 100) := by
  refine ⟨c7_recovered_phasor_eval, ?_⟩
  intro h
  have := h.1
  rw [abs_le] at this
  linarith [this.1, this.2]

/-- C7 (amended): that round trip recovers (0.0, 0.0); each component is
within the integer mode's quantization step 915527/1e5 ≈ 9.16 of the
source, not within 1e-2. -/
theorem c7_roundtrip_within_quantization :
    ((dataUnpackWords c7Cfg (dataPackWords c7Cfg)).map
      fun c => (c.pmuStationList.getD 0 dummyStation).phasorValues.getD 0 (0, 0)) =
      some ((0 : ℝ), (0 : ℝ)) ∧
    |(0 : ℝ) - 3| ≤ 915527 / 100000 ∧ |(0 : ℝ) - 4| ≤ 915527 / 100000 := by
  refine ⟨c7_recovered_phasor_eval, ?_, ?_⟩ <;>
    · rw [abs_le]
      constructor <;> norm_num

/-- Reading a 16-bit word inside the left part of an append sees only
that part. -/
theorem u16At_append (l m : List Nat) (i : Nat) (h : i + 2 ≤ l.length) :
    u16At (l ++ m) i = u16At l i := by
  unfold u16At
  rw [List.getD_append _ _ _ _ (by omega), List.getD_append _ _ _ _ (by omega)]

/-- The read loop stops immediately once the target is met. -/
theorem accumReads_done (t : Nat) (cs : List (List Nat)) (acc : List Nat)
    (h : t ≤ acc.length) : accumReads t cs acc = some (acc, cs) := by
  unfold accumReads
  rw [if_pos h]

/-- When the target equals exactly the accumulated plus all offered
nonempty chunks, the read loop consumes precisely those chunks. -/
theorem accumReads_all (t : Nat) : ∀ (cks : List (List Nat)) (rest : List (List Nat))
    (acc : List Nat), (∀ c ∈ cks, c ≠ []) → t = acc.length + cks.flatten.length →
    accumReads t (cks ++ rest) acc = some (acc ++ cks.flatten, rest)
  | [], rest, acc, _, ht => by
    simp only [List.flatten_nil, List.length_nil, Nat.add_zero] at ht
    simp only [List.nil_append, List.flatten_nil, List.append_nil]
    exact accumReads_done t rest acc (Nat.le_of_eq ht)
  | c :: cks2, rest, acc, hne, ht => by
    have hc : c ≠ [] := hne c (List.mem_cons_self c cks2)
    have hclen : 1 ≤ c.length := by
      cases c with
      | nil => exact absurd rfl hc
      | cons a l => simp
    have hflat : (c :: cks2).flatten.length = c.length + cks2.flatten.length := by
      simp [List.flatten_cons]
    have hnotle : ¬ t ≤ acc.length := by omega
    unfold accumReads
    rw [if_neg hnotle]
    simp only [List.cons_append]
    have := accumReads_all t cks2 rest (acc ++ c)
      (fun x hx => hne x (List.mem_cons_of_mem c hx))
      (by simp only [List.length_append]; omega)
    rw [this]
    simp [List.flatten_cons, List.append_assoc]

/-- The read loop consumes some prefix of the offered nonempty chunks and
stops at or past the target. -/
theorem accumReads_split (t : Nat) : ∀ (cks : List (List Nat)) (rest : List (List Nat))
    (acc : List Nat), (∀ c ∈ cks, c ≠ []) → t ≤ acc.length + cks.flatten.length →
    ∃ c1 c2, cks = c1 ++ c2 ∧
      accumReads t (cks ++ rest) acc = some (acc ++ c1.flatten, c2 ++ rest) ∧
      t ≤ acc.length + c1.flatten.length
  | cks, rest, acc, hne, ht => by
    by_cases hle : t ≤ acc.length
    · refine ⟨[], cks, by simp, ?_, by simpa using hle⟩
      simp only [List.flatten_nil, List.append_nil]
      exact accumReads_done t (cks ++ rest) acc hle
    · match cks, hne, ht with
      | [], hne, ht => simp only [List.flatten_nil, List.length_nil, Nat.add_zero] at ht; omega
      | c :: cks2, hne, ht =>
        have hrec := accumReads_split t cks2 rest (acc ++ c)
          (fun x hx => hne x (List.mem_cons_of_mem c hx))
          (by simp only [List.length_append, List.flatten_cons, List.length_append] at ht ⊢; omega)
        obtain ⟨c1, c2, hsp, heq, hge⟩ := hrec
        refine ⟨c :: c1, c2, by rw [List.cons_append, hsp], ?_, ?_⟩
        · unfold accumReads
          rw [if_neg hle]
          simp only [List.cons_append]
          rw [heq]
          simp [List.flatten_cons, List.append_assoc]
        · simp only [List.flatten_cons, List.length_append]
          simp only [List.length_append] at hge
          omega



/-- One ReadFrame call over reads that deliver exactly one well-formed
frame (declared size equal to its length) consumes those reads and hands
that frame to the decoder. -/
theorem pdcReadFrame_one (f : List Nat) (cks rest : List (List Nat))
    (hne : ∀ c ∈ cks, c ≠ []) (hjoin : cks.flatten = f)
    (hlen : 4 ≤ f.length) (hsz : u16At f 2 = f.length) :
    pdcReadFrame (cks ++ rest) = some (f, rest) := by
  obtain ⟨c1, c2, hsp, heq, hge⟩ := accumReads_split 4 cks rest [] hne
    (by simp [hjoin]; omega)
  have hflat : c1.flatten ++ c2.flatten = f := by
    rw [← hjoin, hsp, List.flatten_append]
  unfold pdcReadFrame
  rw [heq]
  simp only [List.nil_append]
  simp only [List.length_nil, Nat.zero_add] at hge
  have hsz1 : u16At c1.flatten 2 = f.length := by
    rw [← hsz, ← hflat, u16At_append _ _ _ (by omega)]
  rw [hsz1]
  have hall := accumReads_all f.length c2 rest c1.flatten
    (fun x hx => hne x (by rw [hsp]; exact List.mem_append_right c1 hx))
    (by rw [← hflat]; simp)
  rw [hall, hflat]
  simp [List.take_length]

/-- Successive ReadFrame calls over any frame-respecting chunking of a
well-formed frame sequence recover exactly those frames. -/
theorem pdcReadFrames_refined : ∀ (fs : List (List Nat)) (css : List (List (List Nat))),
    (∀ f ∈ fs, 4 ≤ f.length ∧ u16At f 2 = f.length) →
    List.Forall₂ (fun cs f => cs.flatten = f ∧ ∀ c ∈ cs, c ≠ []) css fs →
    pdcReadFrames fs.length css.flatten = fs.map some
  | [], [], _, List.Forall₂.nil => rfl
  | f :: fs2, cs :: css2, hwf, List.Forall₂.cons hhead htail => by
    obtain ⟨hjoin, hne⟩ := hhead
    obtain ⟨hlen, hsz⟩ := hwf f (List.mem_cons_self f fs2)
    have hone := pdcReadFrame_one f cs css2.flatten hne hjoin hlen hsz
    simp only [List.length_cons, List.flatten_cons]
    unfold pdcReadFrames
    rw [hone]
    have ih := pdcReadFrames_refined fs2 css2
      (fun x hx => hwf x (List.mem_cons_of_mem f hx)) htail
    simp [ih]



/-- Flattening a list of singletons gives back the list. -/
theorem flatten_map_singleton {α : Type} : ∀ l : List α, (l.map fun f => [f]).flatten = l
  | [] => rfl
  | a :: l => by
    simp only [List.map_cons, List.flatten_cons, List.singleton_append, List.cons.injEq]
    exact ⟨trivial, flatten_map_singleton l⟩

/-- C5 (amended): for every sequence of well-formed frames and every
splitting of the byte stream into successive nonempty reads in which no
read crosses a frame boundary, successive PDC.ReadFrame calls hand the
decoder the same frames as the unsplit one-read-per-frame delivery, hence
return the same decoded frames. -/
theorem c5_fragmentation_tolerance (fs : List (List Nat)) (css : List (List (List Nat)))
    (hwf : ∀ f ∈ fs, 4 ≤ f.length ∧ u16At f 2 = f.length)
    (href : List.Forall₂ (fun cs f => cs.flatten = f ∧ ∀ c ∈ cs, c ≠ []) css fs) :
    pdcReadFrames fs.length css.flatten = fs.map some ∧
    pdcReadFrames fs.length fs = fs.map some ∧
    ∀ cfg, (pdcReadFrames fs.length css.flatten).map (Option.map fun b => UnpackFrame b cfg) =
      (pdcReadFrames fs.length fs).map (Option.map fun b => UnpackFrame b cfg) := by
  have h1 := pdcReadFrames_refined fs css hwf href
  have hrefl : List.Forall₂ (fun cs f => cs.flatten = f ∧ ∀ c ∈ cs, c ≠ [])
      (fs.map fun f => [f]) fs := by
    rw [List.forall₂_map_left_iff]
    refine List.forall₂_same.mpr ?_
    intro f hf
    refine ⟨by simp, ?_⟩
    intro c hc
    simp only [List.mem_singleton] at hc
    subst hc
    have hl := (hwf c hf).1
    intro hnil
    rw [hnil] at hl
    exact absurd hl (by norm_num)
  have h2 := pdcReadFrames_refined fs (fs.map fun f => [f]) hwf hrefl
  rw [flatten_map_singleton fs] at h2
  exact ⟨h1, h2, fun cfg => by rw [h1, h2]⟩

/-- C5 witness: one Command frame split into a 10-byte and an 8-byte read
decodes identically to the unsplit delivery. -/
theorem c5_fragmentation_tolerance_witness :
    pdcReadFrames 1 [(cmdPack newCommandFrame).take 10, (cmdPack newCommandFrame).drop 10] =
      [some (cmdPack newCommandFrame)] := by
  have h := (c5_fragmentation_tolerance [cmdPack newCommandFrame]
    [[(cmdPack newCommandFrame).take 10, (cmdPack newCommandFrame).drop 10]]
    (by decide)
    (List.Forall₂.cons (by decide) List.Forall₂.nil)).1
  simpa using h

/-- Reduction modulo 2^16 distributes over XOR. -/
theorem mod65536_xor (a b : Nat) : (a ^^^ b) % 65536 = a % 65536 ^^^ b % 65536 := by
  have h : (65536 : Nat) = 2 ^ 16 := by norm_num
  rw [h]
  apply Nat.eq_of_testBit_eq
  intro i
  rw [Nat.testBit_mod_two_pow, Nat.testBit_xor, Nat.testBit_xor,
    Nat.testBit_mod_two_pow, Nat.testBit_mod_two_pow, Bool.and_xor_distrib_left]

/-- Left shift distributes over XOR. -/
theorem shiftLeft_xor_distrib (a b n : Nat) : (a ^^^ b) <<< n = (a <<< n) ^^^ (b <<< n) := by
  apply Nat.eq_of_testBit_eq
  intro i
  simp only [Nat.testBit_shiftLeft, Nat.testBit_xor, Bool.and_xor_distrib_left]

/-- A conditional XOR-mask of an XOR of conditions splits into two
conditional masks. -/
theorem ite_xor_ite (A B : Bool) (P : Nat) :
    (if (A ^^ B) then P else 0) = (if A then P else 0) ^^^ (if B then P else 0) := by
  cases A <;> cases B <;>
    simp [Nat.xor_self, Nat.zero_xor, Nat.xor_zero]

/-- Closed form of one CRC register step. -/
theorem crcRound_eq (c : Nat) :
    crcRound c = ((c <<< 1) ^^^ (if c.testBit 15 then 4129 else 0)) % 65536 := by
  unfold crcRound
  rcases h : c.testBit 15 with _ | _
  · rw [if_neg (by simp [h]), if_neg (by simp [h]), Nat.xor_zero]
  · rw [if_pos (by simp [h]), if_pos (by simp [h])]

/-- One CRC register step is GF(2)-linear. -/
theorem crcRound_xor (a b : Nat) : crcRound (a ^^^ b) = crcRound a ^^^ crcRound b := by
  rw [crcRound_eq, crcRound_eq, crcRound_eq, ← mod65536_xor, shiftLeft_xor_distrib,
    Nat.testBit_xor, ite_xor_ite]
  congr 1
  rw [Nat.xor_assoc, Nat.xor_assoc]
  congr 1
  rw [← Nat.xor_assoc, ← Nat.xor_assoc, Nat.xor_comm (if a.testBit 15 then 4129 else 0)]

/-- Iterated CRC register steps are GF(2)-linear. -/
theorem crcRound_iter_xor (n : Nat) (a b : Nat) :
    crcRound^[n] (a ^^^ b) = crcRound^[n] a ^^^ crcRound^[n] b := by
  induction n generalizing a b with
  | zero => rfl
  | succ m ih => rw [Function.iterate_succ_apply, Function.iterate_succ_apply,
      Function.iterate_succ_apply, crcRound_xor, ih]

/-- Absorbing a byte into the CRC register is GF(2)-linear in register
and byte. -/
theorem crcByte_xor (c1 c2 b1 b2 : Nat) :
    crcByte (c1 ^^^ c2) (b1 ^^^ b2) = crcByte c1 b1 ^^^ crcByte c2 b2 := by
  unfold crcByte
  rw [shiftLeft_xor_distrib]
  rw [show c1 ^^^ c2 ^^^ (b1 <<< 8 ^^^ b2 <<< 8) = (c1 ^^^ b1 <<< 8) ^^^ (c2 ^^^ b2 <<< 8) by
    ac_rfl]
  exact crcRound_iter_xor 8 _ _



/-- The CRC fold is GF(2)-linear in the initial register and the message
(messages combined bytewise by XOR). -/
theorem foldl_crcByte_xor : ∀ (l1 l2 : List Nat), l1.length = l2.length → ∀ (a b : Nat),
    List.foldl crcByte (a ^^^ b) (List.zipWith (· ^^^ ·) l1 l2) =
      List.foldl crcByte a l1 ^^^ List.foldl crcByte b l2
  | [], [], _, a, b => rfl
  | x :: l1, y :: l2, h, a, b => by
    simp only [List.zipWith_cons_cons, List.foldl_cons]
    rw [crcByte_xor]
    exact foldl_crcByte_xor l1 l2 (by simpa using h) _ _

/-- The zero register is a fixed point of the CRC step. -/
theorem crcRound_zero : crcRound 0 = 0 := by decide

/-- A zero byte leaves the zero register at zero. -/
theorem crcByte_zero_zero : crcByte 0 0 = 0 := by decide

/-- A run of zero bytes leaves the zero register at zero. -/
theorem foldl_crcByte_zeros : ∀ n : Nat, List.foldl crcByte 0 (List.replicate n 0) = 0
  | 0 => rfl
  | n + 1 => by
    simp only [List.replicate_succ, List.foldl_cons, crcByte_zero_zero]
    exact foldl_crcByte_zeros n

/-- The CRC register stays below 2^16. -/
theorem crcRound_lt (x : Nat) : crcRound x < 65536 := by
  unfold crcRound
  split <;> exact Nat.mod_lt _ (by norm_num)

/-- A nonzero 16-bit CRC register stays nonzero after one step (the
polynomial 0x1021 has its low bit set). -/
theorem crcRound_ne_zero (x : Nat) (h1 : x ≠ 0) (h2 : x < 65536) : crcRound x ≠ 0 := by
  rcases htb : x.testBit 15 with _ | _
  · have hx15 : x < 32768 := by
      by_contra hge
      push_neg at hge
      have hdiv : x / 2 ^ 15 = 1 := by omega
      rw [Nat.testBit_to_div_mod, hdiv] at htb
      simp at htb
    unfold crcRound
    rw [if_neg (by simp [htb])]
    rw [Nat.shiftLeft_eq]
    have : x * 2 ^ 1 < 65536 := by omega
    rw [Nat.mod_eq_of_lt this]
    omega
  · unfold crcRound
    rw [if_pos (by simp [htb])]
    intro hzero
    have hbit0 : (((x <<< 1) ^^^ 4129) % 65536).testBit 0 = false := by
      rw [hzero]
      exact Nat.zero_testBit 0
    rw [show (65536 : Nat) = 2 ^ 16 by norm_num, Nat.testBit_mod_two_pow] at hbit0
    simp only [Nat.testBit_xor, Nat.testBit_shiftLeft] at hbit0
    norm_num at hbit0

/-- A nonzero 16-bit CRC register stays nonzero under iterated steps. -/
theorem crcRound_iter_ne_zero : ∀ (n : Nat) (x : Nat), x ≠ 0 → x < 65536 →
    crcRound^[n] x ≠ 0 ∧ crcRound^[n] x < 65536
  | 0, x, h1, h2 => ⟨h1, h2⟩
  | n + 1, x, h1, h2 => by
    rw [Function.iterate_succ_apply]
    exact crcRound_iter_ne_zero n (crcRound x) (crcRound_ne_zero x h1 h2) (crcRound_lt x)

/-- A zero byte keeps a nonzero register nonzero. -/
theorem crcByte_zero_ne_zero (x : Nat) (h1 : x ≠ 0) (h2 : x < 65536) :
    crcByte x 0 ≠ 0 ∧ crcByte x 0 < 65536 := by
  unfold crcByte
  rw [show (0 : Nat) <<< 8 = 0 by decide, Nat.xor_zero]
  exact crcRound_iter_ne_zero 8 x h1 h2

/-- Absorbing a nonzero error byte into the zero register gives a nonzero
register. -/
theorem crcByte_err_ne_zero (e : Nat) (h1 : e ≠ 0) (h2 : e < 256) :
    crcByte 0 e ≠ 0 ∧ crcByte 0 e < 65536 := by
  unfold crcByte
  rw [Nat.zero_xor]
  refine crcRound_iter_ne_zero 8 (e <<< 8) ?_ ?_
  · rw [Nat.shiftLeft_eq]
    positivity
  · rw [Nat.shiftLeft_eq]
    omega

/-- Trailing zero bytes keep a nonzero register nonzero. -/
theorem foldl_zeros_ne_zero : ∀ (r z : Nat), z ≠ 0 → z < 65536 →
    List.foldl crcByte z (List.replicate r 0) ≠ 0
  | 0, _, h1, _ => h1
  | r + 1, z, h1, h2 => by
    simp only [List.replicate_succ, List.foldl_cons]
    obtain ⟨hn, hl⟩ := crcByte_zero_ne_zero z h1 h2
    exact foldl_zeros_ne_zero r _ hn hl

/-- The CRC of a single-nonzero-byte error vector (from the zero initial
register) is nonzero. -/
theorem foldl_errvec_ne_zero (k r e : Nat) (h1 : e ≠ 0) (h2 : e < 256) :
    List.foldl crcByte 0 (List.replicate k 0 ++ e :: List.replicate r 0) ≠ 0 := by
  rw [List.foldl_append, foldl_crcByte_zeros, List.foldl_cons]
  obtain ⟨hne, hlt⟩ := crcByte_err_ne_zero e h1 h2
  exact foldl_zeros_ne_zero r _ hne hlt



/-- XOR-ing a message with zeros is the identity. -/
theorem zipWith_xor_zeros : ∀ l : List Nat,
    List.zipWith (· ^^^ ·) l (List.replicate l.length 0) = l
  | [] => rfl
  | x :: l => by
    simp only [List.length_cons, List.replicate_succ, List.zipWith_cons_cons, Nat.xor_zero]
    rw [zipWith_xor_zeros l]

/-- Flipping bits of byte k is XOR with a single-nonzero-byte error
vector. -/
theorem set_eq_zipWith_err : ∀ (d : List Nat) (k e : Nat), k < d.length →
    d.set k (d.getD k 0 ^^^ e) =
      List.zipWith (· ^^^ ·) d (List.replicate k 0 ++ e :: List.replicate (d.length - k - 1) 0)
  | x :: d, 0, e, _ => by
    simp only [List.replicate, List.nil_append, List.zipWith_cons_cons, List.getD_cons_zero,
      List.set_cons_zero, List.length_cons]
    rw [show d.length + 1 - 0 - 1 = d.length by omega]
    rw [zipWith_xor_zeros d]
  | x :: d, k + 1, e, h => by
    simp only [List.replicate_succ, List.cons_append, List.zipWith_cons_cons, Nat.xor_zero,
      List.getD_cons_succ, List.set_cons_succ, List.length_cons]
    rw [show d.length + 1 - (k + 1) - 1 = d.length - k - 1 by omega]
    rw [set_eq_zipWith_err d k e (by simpa using h)]

/-- Absorbing a byte leaves the register below 2^16. -/
theorem crcByte_lt (c b : Nat) : crcByte c b < 65536 := by
  unfold crcByte
  rw [show (8 : Nat) = 7 + 1 by rfl, Function.iterate_succ_apply']
  exact crcRound_lt _

/-- The CRC fold keeps the register below 2^16. -/
theorem foldl_crcByte_lt : ∀ (l : List Nat) (a : Nat), a < 65536 →
    List.foldl crcByte a l < 65536
  | [], a, h => h
  | x :: l, a, _ => by
    simp only [List.foldl_cons]
    exact foldl_crcByte_lt l (crcByte a x) (crcByte_lt a x)

/-- CalcCRC yields a 16-bit value. -/
theorem CalcCRC_lt (d : List Nat) : CalcCRC d < 65536 :=
  foldl_crcByte_lt d 0xFFFF (by norm_num)

/-- Flipping any single bit of any message byte changes CalcCRC: CRC-16
with polynomial 0x1021 detects every single-bit error. -/
theorem CalcCRC_flip (d : List Nat) (k j : Nat) (hk : k < d.length) (hj : j < 8) :
    CalcCRC (d.set k (d.getD k 0 ^^^ (1 <<< j))) ≠ CalcCRC d := by
  rw [set_eq_zipWith_err d k _ hk]
  unfold CalcCRC
  have hlen : d.length =
      (List.replicate k 0 ++ (1 <<< j) :: List.replicate (d.length - k - 1) 0).length := by
    simp only [List.length_append, List.length_replicate, List.length_cons]
    omega
  have hlin := foldl_crcByte_xor d
    (List.replicate k 0 ++ (1 <<< j) :: List.replicate (d.length - k - 1) 0) hlen 0xFFFF 0
  rw [Nat.xor_zero] at hlin
  rw [hlin]
  have hz := foldl_errvec_ne_zero k (d.length - k - 1) (1 <<< j)
    (by rw [Nat.shiftLeft_eq]; positivity)
    (by rw [Nat.shiftLeft_eq, Nat.one_mul]; exact Nat.pow_lt_pow_right (by norm_num) hj |>.trans_le (by norm_num))
  intro heq
  apply hz
  have h2 : List.foldl crcByte 0xFFFF d ^^^ (List.foldl crcByte 0xFFFF d ^^^
      List.foldl crcByte 0 (List.replicate k 0 ++ (1 <<< j) :: List.replicate (d.length - k - 1) 0)) =
      List.foldl crcByte 0xFFFF d ^^^ List.foldl crcByte 0xFFFF d := by rw [heq]
  rw [← Nat.xor_assoc, Nat.xor_self, Nat.zero_xor] at h2
  exact h2



theorem getD_set_ne (l : List Nat) (k i v : Nat) (h : k ≠ i) :
    (l.set k v).getD i 0 = l.getD i 0 := by
  rw [List.getD_eq_getElem?_getD, List.getD_eq_getElem?_getD, List.getElem?_set_ne h]

theorem u16At_set_ne (l : List Nat) (k i v : Nat) (h1 : k ≠ i) (h2 : k ≠ i + 1) :
    u16At (l.set k v) i = u16At l i := by
  unfold u16At
  rw [getD_set_ne l k i v h1, getD_set_ne l k (i + 1) v h2]

theorem take_set_comm : ∀ (l : List Nat) (k m v : Nat), k < m →
    (l.set k v).take m = (l.take m).set k v
  | [], _, _, _, _ => by simp
  | x :: l, 0, m, v, h => by
    obtain ⟨m2, rfl⟩ : ∃ m2, m = m2 + 1 := ⟨m - 1, by omega⟩
    simp
  | x :: l, k + 1, m, v, h => by
    obtain ⟨m2, rfl⟩ : ∃ m2, m = m2 + 1 := ⟨m - 1, by omega⟩
    simp only [List.set_cons_succ, List.take_succ_cons]
    rw [take_set_comm l k m2 v (by omega)]

theorem u16Bytes_length (n : Nat) : (u16Bytes n).length = 2 := rfl

theorem u32Bytes_length (n : Nat) : (u32Bytes n).length = 4 := rfl

theorem cmdBody_length (c : CommandFrame) : (cmdBody c).length = 16 + c.extraFrame.length := by
  simp [cmdBody, u16Bytes, u32Bytes]
  omega

theorem cmdPack_length (c : CommandFrame) : (cmdPack c).length = 18 + c.extraFrame.length := by
  simp [cmdPack, cmdBody_length, u16Bytes]
  omega

theorem cmdPack_getD0 (c : CommandFrame) :
    (cmdPack c).getD 0 0 = c.base.sync / 256 % 256 := by
  simp [cmdPack, cmdBody, u16Bytes, List.cons_append, List.getD_cons_zero]

theorem cmdPack_getD1 (c : CommandFrame) : (cmdPack c).getD 1 0 = c.base.sync % 256 := by
  simp [cmdPack, cmdBody, u16Bytes, List.cons_append, List.getD_cons_zero, List.getD_cons_succ]

theorem cmdPack_u16At2 (c : CommandFrame) :
    u16At (cmdPack c) 2 = c.base.frameSize % 65536 := by
  simp [cmdPack, cmdBody, u16Bytes, u16At, List.cons_append, List.getD_cons_zero,
    List.getD_cons_succ]
  omega

theorem cmdPack_take_body (c : CommandFrame) :
    (cmdPack c).take (16 + c.extraFrame.length) = cmdBody c := by
  rw [cmdPack, List.take_left' (cmdBody_length c)]

theorem cmdPack_chk (c : CommandFrame) :
    u16At (cmdPack c) (16 + c.extraFrame.length) = CalcCRC (cmdBody c) := by
  unfold cmdPack u16At
  rw [List.getD_eq_getElem?_getD, List.getD_eq_getElem?_getD]
  rw [List.getElem?_append_right (by rw [cmdBody_length])]
  rw [List.getElem?_append_right (by rw [cmdBody_length]; omega)]
  rw [cmdBody_length]
  have h1 : 16 + c.extraFrame.length - (16 + c.extraFrame.length) = 0 := by omega
  have h2 : 16 + c.extraFrame.length + 1 - (16 + c.extraFrame.length) = 1 := by omega
  rw [h1, h2]
  show 256 * ((u16Bytes (CalcCRC (cmdBody c)))[0]?.getD 0) +
    (u16Bytes (CalcCRC (cmdBody c)))[1]?.getD 0 = CalcCRC (cmdBody c)
  simp [u16Bytes]
  have := CalcCRC_lt (cmdBody c)
  omega


/-- CommandFrame.Unpack on a buffer whose declared size equals its length:
when the CRC comparison fails, the decode fails with the checksum error. -/
theorem cmdUnpack_crc_fail (d : List Nat) (hlen : 18 ≤ d.length) (hmax : d.length ≤ 65535)
    (hfs : u16At d 2 = d.length)
    (hcrc : CalcCRC (d.take (d.length - 2)) ≠ u16At d (d.length - 2)) :
    cmdUnpack d = .error .crcFailed := by
  simp only [cmdUnpack, hfs]
  rw [if_neg (Nat.not_lt.mpr hlen), if_neg (Nat.not_lt.mpr hlen)]
  rw [if_neg (fun hh : 0 < d.length - 18 ∧ d.length - 18 < 65518 ∧ d.length ≤ 16 =>
    absurd hh.2.2 (by omega))]
  by_cases hC : 0 < d.length - 18 ∧ d.length - 18 < 65518
  · rw [if_pos hC, if_pos hC]
    rw [Nat.min_eq_left (by omega)]
    rw [if_neg (show ¬ d.length < 16 + (d.length - 18) + 2 by omega)]
    rw [show 16 + (d.length - 18) = d.length - 2 by omega]
    rw [if_neg hcrc]
  · rw [if_neg hC, if_neg hC]
    rw [if_neg (show ¬ d.length < 16 + 0 + 2 by omega)]
    have h18 : d.length = 18 := by omega
    rw [show (16 + 0 : Nat) = d.length - 2 by omega]
    rw [if_neg hcrc]


/-- HeaderFrame.Unpack on a buffer whose declared size equals its length:
when the CRC comparison fails, the decode fails with the checksum error. -/
theorem headerUnpack_crc_fail (d : List Nat) (hlen : 16 ≤ d.length)
    (hfs : u16At d 2 = d.length)
    (hcrc : CalcCRC (d.take (d.length - 2)) ≠ u16At d (d.length - 2)) :
    headerUnpack d = .error .crcFailed := by
  simp only [headerUnpack, hfs]
  rw [if_neg (Nat.not_lt.mpr hlen), if_neg (Nat.not_lt.mpr hlen)]
  rw [if_neg (show ¬(0 < d.length - 16 ∧ d.length - 16 < 65000 ∧ d.length ≤ 16) by omega)]
  rw [if_neg (Nat.lt_irrefl d.length)]
  rw [if_neg hcrc]

/-- UnpackFrame dispatches Command-typed buffers to CommandFrame.Unpack. -/
theorem unpackFrame_cmd_branch (d : List Nat) (cfg : Option ConfigFrame)
    (h2 : 2 ≤ d.length) (h0 : d.getD 0 0 = 0xAA) (h1 : (d.getD 1 0 >>> 4) &&& 7 = 4) :
    UnpackFrame d cfg = (cmdUnpack d).map Frame.cmdF := by
  have hg : getFrameType d = .ok 4 := by
    unfold getFrameType
    rw [if_neg (Nat.not_lt.mpr h2), if_neg (fun hK => hK h0), h1]
  simp only [UnpackFrame, hg]

/-- UnpackFrame dispatches Header-typed buffers to HeaderFrame.Unpack. -/
theorem unpackFrame_header_branch (d : List Nat) (cfg : Option ConfigFrame)
    (h2 : 2 ≤ d.length) (h0 : d.getD 0 0 = 0xAA) (h1 : (d.getD 1 0 >>> 4) &&& 7 = 1) :
    UnpackFrame d cfg = (headerUnpack d).map Frame.headerF := by
  have hg : getFrameType d = .ok 1 := by
    unfold getFrameType
    rw [if_neg (Nat.not_lt.mpr h2), if_neg (fun hK => hK h0), h1]
  simp only [UnpackFrame, hg]

/-- UnpackFrame propagates a Data decode error. -/
theorem unpackFrame_data_branch_error (d : List Nat) (c : ConfigFrame) (e : PErr)
    (h2 : 2 ≤ d.length) (h0 : d.getD 0 0 = 0xAA) (h1 : (d.getD 1 0 >>> 4) &&& 7 = 0)
    (hd : (dataUnpack (some c) d).2 = .error e) :
    UnpackFrame d (some c) = .error e := by
  have hg : getFrameType d = .ok 0 := by
    unfold getFrameType
    rw [if_neg (Nat.not_lt.mpr h2), if_neg (fun hK => hK h0), h1]
  rcases hdp : dataUnpack (some c) d with ⟨c1, r⟩
  rw [hdp] at hd
  simp only at hd
  subst hd
  simp only [UnpackFrame, hg, hdp]

/-- Flipping one bit at byte offset k, 4 ≤ k ≤ size-3, of a packed Command
frame whose stored size covers the extension makes the decode fail with
the checksum error. -/
theorem c3_cmd_flip (c : CommandFrame) (k j : Nat) (cfg : Option ConfigFrame)
    (hsync : c.base.sync = 0xAA41)
    (hfs : c.base.frameSize = 18 + c.extraFrame.length)
    (hext : c.extraFrame.length ≤ 65517)
    (hk4 : 4 ≤ k) (hkU : k < 16 + c.extraFrame.length) (hj : j < 8) :
    UnpackFrame ((cmdPack c).set k ((cmdPack c).getD k 0 ^^^ (1 <<< j))) cfg
      = .error .crcFailed := by
  have hLen : (cmdPack c).length = 18 + c.extraFrame.length := cmdPack_length c
  have hBLen : (cmdBody c).length = 16 + c.extraFrame.length := cmdBody_length c
  have hlen2 : ((cmdPack c).set k ((cmdPack c).getD k 0 ^^^ (1 <<< j))).length =
      18 + c.extraFrame.length := by rw [List.length_set, hLen]
  have h0 : ((cmdPack c).set k ((cmdPack c).getD k 0 ^^^ (1 <<< j))).getD 0 0 = 0xAA := by
    rw [getD_set_ne _ _ _ _ (by omega), cmdPack_getD0, hsync]
  have h1 : ((cmdPack c).set k ((cmdPack c).getD k 0 ^^^ (1 <<< j))).getD 1 0 = 0x41 := by
    rw [getD_set_ne _ _ _ _ (by omega), cmdPack_getD1, hsync]
  rw [unpackFrame_cmd_branch _ cfg (by omega) h0 (by rw [h1]; decide)]
  have hfs2 : u16At ((cmdPack c).set k ((cmdPack c).getD k 0 ^^^ (1 <<< j))) 2 =
      18 + c.extraFrame.length := by
    rw [u16At_set_ne _ _ _ _ (by omega) (by omega), cmdPack_u16At2, hfs,
      Nat.mod_eq_of_lt (by omega)]
  have hchk : u16At ((cmdPack c).set k ((cmdPack c).getD k 0 ^^^ (1 <<< j)))
      (16 + c.extraFrame.length) = CalcCRC (cmdBody c) := by
    rw [u16At_set_ne _ _ _ _ (by omega) (by omega), cmdPack_chk]
  have htake : ((cmdPack c).set k ((cmdPack c).getD k 0 ^^^ (1 <<< j))).take
      (16 + c.extraFrame.length) =
      (cmdBody c).set k ((cmdBody c).getD k 0 ^^^ (1 <<< j)) := by
    rw [take_set_comm _ _ _ _ (by omega), cmdPack_take_body]
    congr 2
    unfold cmdPack
    rw [List.getD_eq_getElem?_getD, List.getD_eq_getElem?_getD, List.getElem?_append,
      if_pos (by rw [hBLen]; omega)]
  rw [cmdUnpack_crc_fail _ (by omega) (by omega) (by rw [hlen2, hfs2]) ?_]
  · rfl
  · rw [hlen2]
    rw [show 18 + c.extraFrame.length - 2 = 16 + c.extraFrame.length by omega]
    rw [hchk, htake]
    exact CalcCRC_flip (cmdBody c) k j (by omega) hj


theorem headerBody_length (h : HeaderFrame) : (headerBody h).length = 14 + h.data.length := by
  simp [headerBody, u16Bytes, u32Bytes]
  omega

theorem headerPack_length (h : HeaderFrame) : (headerPack h).length = 16 + h.data.length := by
  simp [headerPack, headerBody_length, u16Bytes]
  omega

theorem headerPack_getD0 (h : HeaderFrame) :
    (headerPack h).getD 0 0 = h.base.sync / 256 % 256 := by
  simp [headerPack, headerBody, u16Bytes, List.cons_append, List.getD_cons_zero]

theorem headerPack_getD1 (h : HeaderFrame) : (headerPack h).getD 1 0 = h.base.sync % 256 := by
  simp [headerPack, headerBody, u16Bytes, List.cons_append, List.getD_cons_zero,
    List.getD_cons_succ]

theorem headerPack_u16At2 (h : HeaderFrame) :
    u16At (headerPack h) 2 = (16 + h.data.length) % 65536 := by
  simp [headerPack, headerBody, u16Bytes, u16At, List.cons_append, List.getD_cons_zero,
    List.getD_cons_succ]
  omega

theorem headerPack_take_body (h : HeaderFrame) :
    (headerPack h).take (14 + h.data.length) = headerBody h := by
  rw [headerPack, List.take_left' (headerBody_length h)]

theorem headerPack_chk (h : HeaderFrame) :
    u16At (headerPack h) (14 + h.data.length) = CalcCRC (headerBody h) := by
  unfold headerPack u16At
  rw [List.getD_eq_getElem?_getD, List.getD_eq_getElem?_getD]
  rw [List.getElem?_append_right (by rw [headerBody_length])]
  rw [List.getElem?_append_right (by rw [headerBody_length]; omega)]
  rw [headerBody_length]
  have h1 : 14 + h.data.length - (14 + h.data.length) = 0 := by omega
  have h2 : 14 + h.data.length + 1 - (14 + h.data.length) = 1 := by omega
  rw [h1, h2]
  show 256 * ((u16Bytes (CalcCRC (headerBody h)))[0]?.getD 0) +
    (u16Bytes (CalcCRC (headerBody h)))[1]?.getD 0 = CalcCRC (headerBody h)
  simp [u16Bytes]
  have := CalcCRC_lt (headerBody h)
  omega

/-- Flipping one bit at byte offset k, 4 ≤ k ≤ size-3, of a packed Header
frame makes the decode fail with the checksum error. -/
theorem c3_header_flip (h : HeaderFrame) (k j : Nat) (cfg : Option ConfigFrame)
    (hsync : h.base.sync = 0xAA11) (hdl : h.data.length ≤ 65519)
    (hk4 : 4 ≤ k) (hkU : k < 14 + h.data.length) (hj : j < 8) :
    UnpackFrame ((headerPack h).set k ((headerPack h).getD k 0 ^^^ (1 <<< j))) cfg
      = .error .crcFailed := by
  have hLen : (headerPack h).length = 16 + h.data.length := headerPack_length h
  have hBLen : (headerBody h).length = 14 + h.data.length := headerBody_length h
  have hlen2 : ((headerPack h).set k ((headerPack h).getD k 0 ^^^ (1 <<< j))).length =
      16 + h.data.length := by rw [List.length_set, hLen]
  have h0 : ((headerPack h).set k ((headerPack h).getD k 0 ^^^ (1 <<< j))).getD 0 0 = 0xAA := by
    rw [getD_set_ne _ _ _ _ (by omega), headerPack_getD0, hsync]
  have h1 : ((headerPack h).set k ((headerPack h).getD k 0 ^^^ (1 <<< j))).getD 1 0 = 0x11 := by
    rw [getD_set_ne _ _ _ _ (by omega), headerPack_getD1, hsync]
  rw [unpackFrame_header_branch _ cfg (by omega) h0 (by rw [h1]; decide)]
  have hfs2 : u16At ((headerPack h).set k ((headerPack h).getD k 0 ^^^ (1 <<< j))) 2 =
      16 + h.data.length := by
    rw [u16At_set_ne _ _ _ _ (by omega) (by omega), headerPack_u16At2,
      Nat.mod_eq_of_lt (by omega)]
  have hchk : u16At ((headerPack h).set k ((headerPack h).getD k 0 ^^^ (1 <<< j)))
      (14 + h.data.length) = CalcCRC (headerBody h) := by
    rw [u16At_set_ne _ _ _ _ (by omega) (by omega), headerPack_chk]
  have htake : ((headerPack h).set k ((headerPack h).getD k 0 ^^^ (1 <<< j))).take
      (14 + h.data.length) =
      (headerBody h).set k ((headerBody h).getD k 0 ^^^ (1 <<< j)) := by
    rw [take_set_comm _ _ _ _ (by omega), headerPack_take_body]
    congr 2
    unfold headerPack
    rw [List.getD_eq_getElem?_getD, List.getD_eq_getElem?_getD, List.getElem?_append,
      if_pos (by rw [hBLen]; omega)]
  rw [headerUnpack_crc_fail _ (by omega) (by rw [hlen2, hfs2]) ?_]
  · rfl
  · rw [hlen2]
    rw [show 16 + h.data.length - 2 = 14 + h.data.length by omega]
    rw [hchk, htake]
    exact CalcCRC_flip (headerBody h) k j (by omega) hj



/-- The phasor byte reads' control flow (positions and errors) depends only
on the buffer length, not its contents. -/
theorem bytesUnpackPhasors_snd (p : PMUStation) (d1 d2 : List Nat)
    (hl : d1.length = d2.length) : ∀ (n j pos : Nat),
    (bytesUnpackPhasors p d1 j n pos).map Prod.snd =
      (bytesUnpackPhasors p d2 j n pos).map Prod.snd
  | 0, j, pos => rfl
  | n + 1, j, pos => by
    have ih8 := bytesUnpackPhasors_snd p d1 d2 hl n (j + 1) (pos + 8)
    have ih4 := bytesUnpackPhasors_snd p d1 d2 hl n (j + 1) (pos + 4)
    simp only [bytesUnpackPhasors, hl]
    cases hb : formatPhasorType p
    · simp only [Bool.false_eq_true, if_false]
      by_cases hl4 : d2.length < pos + 4
      · simp [hl4]
      · simp only [hl4, if_false]
        rcases h1 : bytesUnpackPhasors p d1 (j + 1) n (pos + 4) with e1 | ⟨zs1, q1⟩ <;>
          rcases h2 : bytesUnpackPhasors p d2 (j + 1) n (pos + 4) with e2 | ⟨zs2, q2⟩ <;>
          rw [h1, h2] at ih4 <;> simp only [Except.map] at ih4 ⊢ <;> simp_all
    · simp only [if_true]
      by_cases hl8 : d2.length < pos + 8
      · simp [hl8]
      · simp only [hl8, if_false]
        rcases h1 : bytesUnpackPhasors p d1 (j + 1) n (pos + 8) with e1 | ⟨zs1, q1⟩ <;>
          rcases h2 : bytesUnpackPhasors p d2 (j + 1) n (pos + 8) with e2 | ⟨zs2, q2⟩ <;>
          rw [h1, h2] at ih8 <;> simp only [Except.map] at ih8 ⊢ <;> simp_all


/-- The freq/dfreq byte reads' control flow depends only on the buffer
length. -/
theorem bytesUnpackFreq_snd (p : PMUStation) (d1 d2 : List Nat)
    (hl : d1.length = d2.length) (pos : Nat) :
    (bytesUnpackFreq p d1 pos).map Prod.snd = (bytesUnpackFreq p d2 pos).map Prod.snd := by
  simp only [bytesUnpackFreq, hl]
  cases hb : formatFreqType p
  · simp only [Bool.false_eq_true, if_false]
    by_cases hl4 : d2.length < pos + 4 <;> simp [hl4, Except.map]
  · simp only [if_true]
    by_cases hl8 : d2.length < pos + 8 <;> simp [hl8, Except.map]

/-- The analog byte reads' control flow depends only on the buffer
length. -/
theorem bytesUnpackAnalogs_snd (p : PMUStation) (d1 d2 : List Nat)
    (hl : d1.length = d2.length) : ∀ (n pos : Nat),
    (bytesUnpackAnalogs p d1 n pos).map Prod.snd =
      (bytesUnpackAnalogs p d2 n pos).map Prod.snd
  | 0, pos => rfl
  | n + 1, pos => by
    have ih4 := bytesUnpackAnalogs_snd p d1 d2 hl n (pos + 4)
    have ih2 := bytesUnpackAnalogs_snd p d1 d2 hl n (pos + 2)
    simp only [bytesUnpackAnalogs, hl]
    cases hb : formatAnalogType p
    · simp only [Bool.false_eq_true, if_false]
      by_cases hl2 : d2.length < pos + 2
      · simp [hl2]
      · simp only [hl2, if_false]
        rcases h1 : bytesUnpackAnalogs p d1 n (pos + 2) with e1 | ⟨vs1, q1⟩ <;>
          rcases h2 : bytesUnpackAnalogs p d2 n (pos + 2) with e2 | ⟨vs2, q2⟩ <;>
          rw [h1, h2] at ih2 <;> simp only [Except.map] at ih2 ⊢ <;> simp_all
    · simp only [if_true]
      by_cases hl4 : d2.length < pos + 4
      · simp [hl4]
      · simp only [hl4, if_false]
        rcases h1 : bytesUnpackAnalogs p d1 n (pos + 4) with e1 | ⟨vs1, q1⟩ <;>
          rcases h2 : bytesUnpackAnalogs p d2 n (pos + 4) with e2 | ⟨vs2, q2⟩ <;>
          rw [h1, h2] at ih4 <;> simp only [Except.map] at ih4 ⊢ <;> simp_all

/-- The digital byte reads' control flow depends only on the buffer
length. -/
theorem bytesUnpackDigitals_snd (d1 d2 : List Nat) (hl : d1.length = d2.length) :
    ∀ (n pos : Nat),
    (bytesUnpackDigitals d1 n pos).map Prod.snd = (bytesUnpackDigitals d2 n pos).map Prod.snd
  | 0, pos => rfl
  | n + 1, pos => by
    have ih2 := bytesUnpackDigitals_snd d1 d2 hl n (pos + 2)
    simp only [bytesUnpackDigitals, hl]
    by_cases hl2 : d2.length < pos + 2
    · simp [hl2]
    · simp only [hl2, if_false]
      rcases h1 : bytesUnpackDigitals d1 n (pos + 2) with e1 | ⟨bs1, q1⟩ <;>
        rcases h2 : bytesUnpackDigitals d2 n (pos + 2) with e2 | ⟨bs2, q2⟩ <;>
        rw [h1, h2] at ih2 <;> simp only [Except.map] at ih2 ⊢ <;> simp_all

/-- One station's byte-read control flow depends only on the buffer
length. -/
theorem stationUnpackBytes_snd (p : PMUStation) (d1 d2 : List Nat)
    (hl : d1.length = d2.length) (pos : Nat) :
    (stationUnpackBytes p d1 pos).map Prod.snd = (stationUnpackBytes p d2 pos).map Prod.snd := by
  simp only [stationUnpackBytes, hl]
  by_cases hl2 : d2.length < pos + 2
  · simp [hl2]
  · simp only [hl2, if_false]
    have hph := bytesUnpackPhasors_snd p d1 d2 hl p.phnmr 0 (pos + 2)
    rcases h1 : bytesUnpackPhasors p d1 0 p.phnmr (pos + 2) with e1 | ⟨zs1, q1⟩ <;>
      rcases h2 : bytesUnpackPhasors p d2 0 p.phnmr (pos + 2) with e2 | ⟨zs2, q2⟩ <;>
      rw [h1, h2] at hph <;> simp only [Except.map] at hph <;> [skip; exact absurd hph (by simp);
        exact absurd hph (by simp); skip]
    · simp_all
    · simp only [Except.ok.injEq] at hph
      subst hph
      have hfr := bytesUnpackFreq_snd p d1 d2 hl q1
      rcases g1 : bytesUnpackFreq p d1 q1 with e1 | ⟨fd1, q1b⟩ <;>
        rcases g2 : bytesUnpackFreq p d2 q1 with e2 | ⟨fd2, q2b⟩ <;>
        rw [g1, g2] at hfr <;> simp only [Except.map] at hfr <;> [skip; exact absurd hfr (by simp);
          exact absurd hfr (by simp); skip]
      · simp_all
      · simp only [Except.ok.injEq] at hfr
        subst hfr
        have han := bytesUnpackAnalogs_snd p d1 d2 hl p.annmr q1b
        rcases a1 : bytesUnpackAnalogs p d1 p.annmr q1b with e1 | ⟨as1, q1c⟩ <;>
          rcases a2 : bytesUnpackAnalogs p d2 p.annmr q1b with e2 | ⟨as2, q2c⟩ <;>
          rw [a1, a2] at han <;> simp only [Except.map] at han <;>
          [skip; exact absurd han (by simp); exact absurd han (by simp); skip]
        · simp_all
        · simp only [Except.ok.injEq] at han
          subst han
          have hdg := bytesUnpackDigitals_snd d1 d2 hl p.dgnmr q1c
          rcases b1 : bytesUnpackDigitals d1 p.dgnmr q1c with e1 | ⟨ds1, q1d⟩ <;>
            rcases b2 : bytesUnpackDigitals d2 p.dgnmr q1c with e2 | ⟨ds2, q2d⟩ <;>
            rw [b1, b2] at hdg <;> simp only [Except.map] at hdg ⊢ <;> simp_all

/-- The whole directory's byte-read control flow depends only on the buffer
length. -/
theorem stationsUnpackBytes_snd (d1 d2 : List Nat) (hl : d1.length = d2.length) :
    ∀ (sts : List PMUStation) (pos : Nat),
    (stationsUnpackBytes sts d1 pos).2 = (stationsUnpackBytes sts d2 pos).2
  | [], pos => rfl
  | p :: ps, pos => by
    simp only [stationsUnpackBytes]
    have hst := stationUnpackBytes_snd p d1 d2 hl pos
    rcases h1 : stationUnpackBytes p d1 pos with e1 | ⟨p1, q1⟩ <;>
      rcases h2 : stationUnpackBytes p d2 pos with e2 | ⟨p2, q2⟩ <;>
      rw [h1, h2] at hst <;> simp only [Except.map] at hst <;>
      [skip; exact absurd hst (by simp); exact absurd hst (by simp); skip]
    · simp_all
    · simp only [Except.ok.injEq] at hst
      subst hst
      simp only []
      exact stationsUnpackBytes_snd d1 d2 hl ps q1


/-- Reading inside the taken prefix sees the original list. -/
theorem getD_take_lt (l : List Nat) (k m : Nat) (h : k < m) :
    (l.take m).getD k 0 = l.getD k 0 := by
  rw [List.getD_eq_getElem?_getD, List.getD_eq_getElem?_getD, List.getElem?_take]
  rw [if_pos h]

/-- DataFrame.Unpack: successful payload parse plus failing CRC comparison
yields the checksum error with the parsed (overwritten) directory. -/
theorem dataUnpack_crc_gate (cfg : ConfigFrame) (d : List Nat) (pos : Nat)
    (hparse : (stationsUnpackBytes cfg.pmuStationList d 14).2 = .ok pos)
    (hlen : 16 ≤ d.length) (hfs : 16 ≤ u16At d 2) (hfl : u16At d 2 ≤ d.length)
    (hcrc : CalcCRC (d.take (u16At d 2 - 2)) ≠ u16At d (u16At d 2 - 2)) :
    dataUnpack (some cfg) d =
      (some { cfg with pmuStationList := (stationsUnpackBytes cfg.pmuStationList d 14).1 },
       .error .crcFailed) := by
  simp only [dataUnpack, if_neg (Nat.not_lt.mpr hlen), if_neg (Nat.not_lt.mpr hfs)]
  rw [hparse]
  simp only [if_neg (Nat.not_lt.mpr hfl), if_neg hcrc]

/-- Flipping one bit at byte offset k, 4 ≤ k ≤ size-3, of a well-formed
Data frame (declared size equal to length, parse succeeding, stored CRC
correct) makes the decode fail with the checksum error. -/
theorem c3_data_flip (cfg : ConfigFrame) (d : List Nat) (k j pos : Nat)
    (h0 : d.getD 0 0 = 0xAA) (h1 : (d.getD 1 0 >>> 4) &&& 7 = 0)
    (hfs : u16At d 2 = d.length) (hlen : 16 ≤ d.length)
    (hparse : (stationsUnpackBytes cfg.pmuStationList d 14).2 = .ok pos)
    (hchk : u16At d (d.length - 2) = CalcCRC (d.take (d.length - 2)))
    (hk4 : 4 ≤ k) (hkU : k < d.length - 2) (hj : j < 8) :
    UnpackFrame (d.set k (d.getD k 0 ^^^ (1 <<< j))) (some cfg) = .error .crcFailed := by
  have hlen2 : (d.set k (d.getD k 0 ^^^ (1 <<< j))).length = d.length := List.length_set d k _
  have h0b : (d.set k (d.getD k 0 ^^^ (1 <<< j))).getD 0 0 = 0xAA := by
    rw [getD_set_ne _ _ _ _ (by omega), h0]
  have h1b : ((d.set k (d.getD k 0 ^^^ (1 <<< j))).getD 1 0 >>> 4) &&& 7 = 0 := by
    rw [getD_set_ne _ _ _ _ (by omega), h1]
  have hfs2 : u16At (d.set k (d.getD k 0 ^^^ (1 <<< j))) 2 = d.length := by
    rw [u16At_set_ne _ _ _ _ (by omega) (by omega), hfs]
  have hparse2 : (stationsUnpackBytes cfg.pmuStationList
      (d.set k (d.getD k 0 ^^^ (1 <<< j))) 14).2 = .ok pos := by
    rw [stationsUnpackBytes_snd (d.set k (d.getD k 0 ^^^ (1 <<< j))) d hlen2
      cfg.pmuStationList 14, hparse]
  have hchk2 : u16At (d.set k (d.getD k 0 ^^^ (1 <<< j))) (d.length - 2) =
      CalcCRC (d.take (d.length - 2)) := by
    rw [u16At_set_ne _ _ _ _ (by omega) (by omega), hchk]
  have htake : (d.set k (d.getD k 0 ^^^ (1 <<< j))).take (d.length - 2) =
      (d.take (d.length - 2)).set k ((d.take (d.length - 2)).getD k 0 ^^^ (1 <<< j)) := by
    rw [take_set_comm _ _ _ _ hkU, getD_take_lt _ _ _ hkU]
  have htlen : (d.take (d.length - 2)).length = d.length - 2 := by
    rw [List.length_take]
    omega
  have hflip : CalcCRC ((d.set k (d.getD k 0 ^^^ (1 <<< j))).take
      (u16At (d.set k (d.getD k 0 ^^^ (1 <<< j))) 2 - 2)) ≠
      u16At (d.set k (d.getD k 0 ^^^ (1 <<< j)))
        (u16At (d.set k (d.getD k 0 ^^^ (1 <<< j))) 2 - 2) := by
    rw [hfs2, htake, hchk2]
    have := CalcCRC_flip (d.take (d.length - 2)) k j (by omega) hj
    exact this
  have hgate := dataUnpack_crc_gate cfg (d.set k (d.getD k 0 ^^^ (1 <<< j))) pos hparse2
    (by rw [hlen2]; exact hlen) (by rw [hfs2]; exact hlen)
    (by rw [hfs2, hlen2]) hflip
  apply unpackFrame_data_branch_error _ _ _ (by rw [hlen2]; omega) h0b h1b
  rw [hgate]


/-- C3 counterexample: flipping a bit of the leading sync byte makes
decode fail with the invalid-frame error, not a checksum error. -/
theorem c3_sync_flip_not_crc_error :
    UnpackFrame ((cmdPack newCommandFrame).set 0
      ((cmdPack newCommandFrame).getD 0 0 ^^^ (1 <<< 0))) none = .error .invalidFrame ∧
    PErr.invalidFrame ≠ PErr.crcFailed := by
  exact ⟨rfl, by decide⟩

/-- C3 (amended): flipping any single bit at byte offsets 4 through size-3
(after the sync and size bytes, before the checksum field) of an encoded
Command frame (with its size field covering the extension), of an encoded
Header frame, or of a well-formed Data frame whose payload parses against
the directory, makes decoding fail with the checksum error; flips inside
the sync, type, or size bytes need not yield a checksum error. -/
theorem c3_checksum_sensitivity :
    (∀ (c : CommandFrame) (k j : Nat) (cfg : Option ConfigFrame),
      c.base.sync = 0xAA41 → c.base.frameSize = 18 + c.extraFrame.length →
      c.extraFrame.length ≤ 65517 → 4 ≤ k → k < 16 + c.extraFrame.length → j < 8 →
      UnpackFrame ((cmdPack c).set k ((cmdPack c).getD k 0 ^^^ (1 <<< j))) cfg
        = .error .crcFailed) ∧
    (∀ (h : HeaderFrame) (k j : Nat) (cfg : Option ConfigFrame),
      h.base.sync = 0xAA11 → h.data.length ≤ 65519 → 4 ≤ k → k < 14 + h.data.length → j < 8 →
      UnpackFrame ((headerPack h).set k ((headerPack h).getD k 0 ^^^ (1 <<< j))) cfg
        = .error .crcFailed) ∧
    (∀ (cfg : ConfigFrame) (d : List Nat) (k j pos : Nat),
      d.getD 0 0 = 0xAA → (d.getD 1 0 >>> 4) &&& 7 = 0 →
      u16At d 2 = d.length → 16 ≤ d.length →
      (stationsUnpackBytes cfg.pmuStationList d 14).2 = .ok pos →
      u16At d (d.length - 2) = CalcCRC (d.take (d.length - 2)) →
      4 ≤ k → k < d.length - 2 → j < 8 →
      UnpackFrame (d.set k (d.getD k 0 ^^^ (1 <<< j))) (some cfg) = .error .crcFailed) :=
  ⟨fun c k j cfg h1 h2 h3 h4 h5 h6 => c3_cmd_flip c k j cfg h1 h2 h3 h4 h5 h6,
   fun h k j cfg h1 h2 h3 h4 h5 => c3_header_flip h k j cfg h1 h2 h3 h4 h5,
   fun cfg d k j pos h0 h1 h2 h3 h4 h5 h6 h7 h8 =>
     c3_data_flip cfg d k j pos h0 h1 h2 h3 h4 h5 h6 h7 h8⟩

/-- C3 witness: flipping bit 0 of byte 5 (inside the ID field) of a packed
START command makes decode fail with the checksum error. -/
theorem c3_checksum_sensitivity_witness :
    UnpackFrame ((cmdPack newCommandFrame).set 5
      ((cmdPack newCommandFrame).getD 5 0 ^^^ (1 <<< 0))) none = .error .crcFailed :=
  c3_checksum_sensitivity.1 newCommandFrame 5 0 none rfl rfl (by decide) (by decide)
    (by decide) (by decide)


/-- The cosine function is 1-Lipschitz. -/
theorem abs_cos_sub_cos_le (x y : ℝ) : |Real.cos x - Real.cos y| ≤ |x - y| := by
  rw [Real.cos_sub_cos, abs_mul, abs_mul]
  have h1 : |(-2 : ℝ)| = 2 := by norm_num
  rw [h1]
  have h2 : |Real.sin ((x + y) / 2)| ≤ 1 := Real.abs_sin_le_one _
  have h3 : |Real.sin ((x - y) / 2)| ≤ |(x - y) / 2| := Real.abs_sin_le_abs
  have h4 : |(x - y) / 2| = |x - y| / 2 := by rw [abs_div]; norm_num
  nlinarith [abs_nonneg (Real.sin ((x + y) / 2)), abs_nonneg (Real.sin ((x - y) / 2)),
    abs_nonneg (x - y)]

/-- The sine function is 1-Lipschitz. -/
theorem abs_sin_sub_sin_le (x y : ℝ) : |Real.sin x - Real.sin y| ≤ |x - y| := by
  rw [Real.sin_sub_sin, abs_mul, abs_mul]
  have h1 : |(2 : ℝ)| = 2 := by norm_num
  rw [h1]
  have h2 : |Real.cos ((x + y) / 2)| ≤ 1 := Real.abs_cos_le_one _
  have h3 : |Real.sin ((x - y) / 2)| ≤ |(x - y) / 2| := Real.abs_sin_le_abs
  have h4 : |(x - y) / 2| = |x - y| / 2 := by rw [abs_div]; norm_num
  nlinarith [abs_nonneg (Real.sin ((x - y) / 2)), abs_nonneg (Real.cos ((x + y) / 2)),
    abs_nonneg (x - y)]

/-- Truncation toward zero differs from the value by less than one. -/
theorem gotrunc_err (x : ℝ) : |(gotrunc x : ℝ) - x| < 1 := by
  unfold gotrunc
  by_cases h : 0 ≤ x
  · rw [if_pos h, abs_lt]
    have h1 := Int.floor_le x
    have h2 := Int.lt_floor_add_one x
    constructor <;> linarith
  · rw [if_neg h, abs_lt]
    have h1 := Int.floor_le (-x)
    have h2 := Int.lt_floor_add_one (-x)
    constructor <;> push_cast <;> linarith

/-- Truncation of a nonnegative value is the floor. -/
theorem gotrunc_of_nonneg (x : ℝ) (h : 0 ≤ x) : gotrunc x = ⌊x⌋ := if_pos h

/-- Casting the toNat of a nonnegative truncation back to the reals is
exact. -/
theorem gotrunc_toNat_cast (x : ℝ) (h : 0 ≤ x) :
    (((gotrunc x).toNat : ℕ) : ℝ) = ((gotrunc x : ℤ) : ℝ) := by
  rw [gotrunc_of_nonneg x h]
  have hnn : (0 : ℤ) ≤ ⌊x⌋ := Int.floor_nonneg.mpr h
  rw [show ((⌊x⌋.toNat : ℕ) : ℝ) = ((⌊x⌋.toNat : ℤ) : ℝ) by norm_cast]
  rw [Int.toNat_of_nonneg hnn]

/-- cmplx.Rect inverts cmplx.Abs and cmplx.Phase. -/
theorem polar_identity (z : ℝ × ℝ) :
    (rabs z * Real.cos (rarg z), rabs z * Real.sin (rarg z)) = z := by
  have habs : rabs z = Complex.abs ⟨z.1, z.2⟩ := by
    rw [rabs, Complex.abs_apply, Complex.normSq_mk]
    ring_nf
  by_cases hz : (⟨z.1, z.2⟩ : ℂ) = 0
  · have h1 : z.1 = 0 ∧ z.2 = 0 := by
      simpa [Complex.ext_iff] using hz
    have h0 : rabs z = 0 := by
      rw [habs, hz]
      simp
    rw [h0]
    simp only [MulZeroClass.zero_mul]
    exact Prod.ext (h1.1.symm) (h1.2.symm)
  · have habs0 : Complex.abs ⟨z.1, z.2⟩ ≠ 0 := by
      simpa using hz
    rw [rarg, habs, Complex.cos_arg hz, Complex.sin_arg]
    show ((⟨z.1, z.2⟩ : ℂ).abs * ((⟨z.1, z.2⟩ : ℂ).re / (⟨z.1, z.2⟩ : ℂ).abs),
      (⟨z.1, z.2⟩ : ℂ).abs * ((⟨z.1, z.2⟩ : ℂ).im / (⟨z.1, z.2⟩ : ℂ).abs)) = z
    rw [mul_div_cancel₀ _ habs0, mul_div_cancel₀ _ habs0]

/-- The magnitude is nonnegative. -/
theorem rabs_nonneg (z : ℝ × ℝ) : 0 ≤ rabs z := Real.sqrt_nonneg _

/-- The phase stays within (-π, π], so its 1e4-scaled value is within the
int16 range. -/
theorem rarg_scaled_range (z : ℝ × ℝ) : |rarg z * 10000| < 32768 := by
  have h1 : rarg z ≤ Real.pi := Complex.arg_le_pi _
  have h2 : -Real.pi < rarg z := Complex.neg_pi_lt_arg _
  have h3 : Real.pi < 3.15 := by
    have := Real.pi_lt_d2
    linarith
  rw [abs_lt]
  constructor <;> nlinarith


/-- Scaled int16 truncation round-trips within one quantization step. -/
theorem trunc_scale_bound (F x : ℝ) (hF : 1 ≤ F) :
    |(gotrunc (x * 100000 / F) : ℝ) * F / 100000 - x| ≤ F / 100000 := by
  have hF0 : (0 : ℝ) < F := by linarith
  have herr := gotrunc_err (x * 100000 / F)
  have hrw : (gotrunc (x * 100000 / F) : ℝ) * F / 100000 - x =
      ((gotrunc (x * 100000 / F) : ℝ) - x * 100000 / F) * (F / 100000) := by
    field_simp
    ring
  rw [hrw, abs_mul, abs_of_pos (show (0 : ℝ) < F / 100000 by positivity)]
  nlinarith [abs_nonneg ((gotrunc (x * 100000 / F) : ℝ) - x * 100000 / F)]

/-- Scaled int16 angle truncation round-trips within the 1e-4 rad step. -/
theorem trunc_angle_bound (a : ℝ) : |(gotrunc (a * 10000) : ℝ) / 10000 - a| ≤ 1 / 10000 := by
  have herr := gotrunc_err (a * 10000)
  have hrw : (gotrunc (a * 10000) : ℝ) / 10000 - a =
      ((gotrunc (a * 10000) : ℝ) - a * 10000) / 10000 := by ring
  rw [hrw, abs_div, abs_of_pos (show (0 : ℝ) < 10000 by norm_num)]
  rw [div_le_div_iff₀ (by norm_num) (by norm_num)]
  nlinarith

/-- One phasor channel's words round-trip within PhasorClose. -/
theorem phasor_word_roundtrip (p : PMUStation) (j : Nat) (ws : List PWord)
    (hfac : formatPhasorType p = false → 1 ≤ getPhasorFactor p j) :
    ∃ zr, phasorUnpackWord p j (phasorPackWords p j ++ ws) = some (zr, ws) ∧
      PhasorClose p j (p.phasorValues.getD j (0, 0)) zr := by
  cases hp : formatPhasorType p
  · have hF1 : (1 : ℝ) ≤ (getPhasorFactor p j : ℝ) := by exact_mod_cast hfac hp
    have hF0 : (0 : ℝ) < (getPhasorFactor p j : ℝ) := by linarith
    cases hc : formatCoord p
    · simp only [phasorPackWords, phasorUnpackWord, hp, hc, Bool.false_eq_true, if_false,
        List.cons_append, List.nil_append]
      refine ⟨_, rfl, ?_, ?_, ?_⟩
      · intro h
        rw [h] at hp
        cases hp
      · intro _ _
        exact ⟨trunc_scale_bound _ _ (by exact_mod_cast hfac hp),
          trunc_scale_bound _ _ (by exact_mod_cast hfac hp)⟩
      · intro _ hcc
        rw [hcc] at hc
        cases hc
    · simp only [phasorPackWords, phasorUnpackWord, hp, hc, Bool.false_eq_true, if_false,
        if_true, List.cons_append, List.nil_append]
      refine ⟨_, rfl, ?_, ?_, ?_⟩
      · intro h
        rw [h] at hp
        cases hp
      · intro _ hcc
        rw [hcc] at hc
        cases hc
      · intro _ _
        set z := p.phasorValues.getD j (0, 0) with hz
        set m := rabs z with hm
        set a := rarg z with ha
        have hm0 : 0 ≤ m := rabs_nonneg z
        have hy0 : 0 ≤ m * 100000 / (getPhasorFactor p j : ℝ) := by positivity
        have hcast : (((gotrunc (m * 100000 / (getPhasorFactor p j : ℝ))).toNat : ℕ) : ℝ) =
            ((gotrunc (m * 100000 / (getPhasorFactor p j : ℝ)) : ℤ) : ℝ) :=
          gotrunc_toNat_cast _ hy0
        set magF : ℝ := (((gotrunc (m * 100000 / (getPhasorFactor p j : ℝ))).toNat : ℕ) : ℝ) *
          (getPhasorFactor p j : ℝ) / 100000 with hmagF
        set angF : ℝ := ((gotrunc (a * 10000) : ℤ) : ℝ) / 10000 with hangF
        have hmb : |magF - m| ≤ (getPhasorFactor p j : ℝ) / 100000 := by
          rw [hmagF, hcast]
          exact trunc_scale_bound _ _ hF1
        have hab : |angF - a| ≤ 1 / 10000 := trunc_angle_bound a
        have hid := polar_identity z
        have hz1 : z.1 = m * Real.cos a := by
          rw [hm, ha]
          exact (congrArg Prod.fst hid).symm
        have hz2 : z.2 = m * Real.sin a := by
          rw [hm, ha]
          exact (congrArg Prod.snd hid).symm
        constructor
        · rw [hz1]
          have hsplit : magF * Real.cos angF - m * Real.cos a =
              (magF - m) * Real.cos angF + m * (Real.cos angF - Real.cos a) := by ring
          rw [hsplit]
          have h1 : |(magF - m) * Real.cos angF| ≤ (getPhasorFactor p j : ℝ) / 100000 := by
            rw [abs_mul]
            have := Real.abs_cos_le_one angF
            nlinarith [abs_nonneg (magF - m)]
          have h2 : |m * (Real.cos angF - Real.cos a)| ≤ m / 10000 := by
            rw [abs_mul, abs_of_nonneg hm0]
            have := abs_cos_sub_cos_le angF a
            nlinarith
          calc |(magF - m) * Real.cos angF + m * (Real.cos angF - Real.cos a)| ≤
              |(magF - m) * Real.cos angF| + |m * (Real.cos angF - Real.cos a)| := abs_add _ _
            _ ≤ (getPhasorFactor p j : ℝ) / 100000 + m / 10000 := by linarith
        · rw [hz2]
          have hsplit : magF * Real.sin angF - m * Real.sin a =
              (magF - m) * Real.sin angF + m * (Real.sin angF - Real.sin a) := by ring
          rw [hsplit]
          have h1 : |(magF - m) * Real.sin angF| ≤ (getPhasorFactor p j : ℝ) / 100000 := by
            rw [abs_mul]
            have := Real.abs_sin_le_one angF
            nlinarith [abs_nonneg (magF - m)]
          have h2 : |m * (Real.sin angF - Real.sin a)| ≤ m / 10000 := by
            rw [abs_mul, abs_of_nonneg hm0]
            have := abs_sin_sub_sin_le angF a
            nlinarith
          calc |(magF - m) * Real.sin angF + m * (Real.sin angF - Real.sin a)| ≤
              |(magF - m) * Real.sin angF| + |m * (Real.sin angF - Real.sin a)| := abs_add _ _
            _ ≤ (getPhasorFactor p j : ℝ) / 100000 + m / 10000 := by linarith
  · cases hc : formatCoord p
    · simp only [phasorPackWords, phasorUnpackWord, hp, hc, Bool.false_eq_true, if_false,
        if_true, List.cons_append, List.nil_append]
      refine ⟨_, rfl, ?_, ?_, ?_⟩
      · intro _
        rfl
      · intro hpf
        rw [hpf] at hp
        cases hp
      · intro hpf
        rw [hpf] at hp
        cases hp
    · simp only [phasorPackWords, phasorUnpackWord, hp, hc, if_true,
        List.cons_append, List.nil_append]
      refine ⟨_, rfl, ?_, ?_, ?_⟩
      · intro _
        exact polar_identity _
      · intro hpf
        rw [hpf] at hp
        cases hp
      · intro hpf
        rw [hpf] at hp
        cases hp


/-- General truncation quantization bound: scaling by c, truncating, and
dividing back is within 1/c. -/
theorem trunc_div_bound (c x : ℝ) (hc : 0 < c) :
    |(gotrunc (x * c) : ℝ) / c - x| ≤ 1 / c := by
  have herr := gotrunc_err (x * c)
  have hrw : (gotrunc (x * c) : ℝ) / c - x = ((gotrunc (x * c) : ℝ) - x * c) / c := by
    field_simp
    ring
  rw [hrw, abs_div, abs_of_pos hc, div_le_div_iff₀ hc hc]
  nlinarith

/-- Folding bit-or of selected powers of two: the result's bit t is on iff
the accumulator already had it or t is a selected index in the list. -/
theorem foldl_orbits_testBit (g : Nat → Bool) :
    ∀ (l : List Nat) (acc t : Nat),
      (l.foldl (fun a k => if g k then a ||| (1 <<< k) else a) acc).testBit t =
        (acc.testBit t || (l.contains t && g t)) := by
  intro l
  induction l with
  | nil => simp
  | cons k l ih =>
    intro acc t
    simp only [List.foldl_cons, List.contains_cons]
    rw [ih]
    by_cases hg : g k
    · rw [if_pos hg, Nat.testBit_or]
      have h1 : (1 <<< k).testBit t = decide (t = k) := by
        rw [Nat.one_shiftLeft]
        by_cases ht : t = k
        · subst ht
          simp [Nat.testBit_two_pow_self]
        · simp [Nat.testBit_two_pow_of_ne (fun h => ht h.symm), ht]
      rw [h1]
      by_cases ht : t = k
      · subst ht
        simp [hg]
      · have hbk : (t == k) = false := by simp [ht]
        rw [hbk]
        simp [ht]
    · rw [if_neg hg]
      by_cases ht : t = k
      · subst ht
        simp [hg]
      · have hbk : (t == k) = false := by simp [ht]
        rw [hbk]
        simp

/-- Bit k of the packed digital word is entry k of the boolean list. -/
theorem bitsToWord_testBit (bs : List Bool) (k : Nat) (hk : k < 16) :
    (bitsToWord bs).testBit k = bs.getD k false := by
  unfold bitsToWord
  rw [foldl_orbits_testBit (fun k => bs.getD k false) (List.range 16) 0 k]
  simp [hk]

/-- Unpacking a packed digital word recovers a 16-bit boolean list. -/
theorem wordToBits_bitsToWord (bs : List Bool) (h : bs.length = 16) :
    wordToBits (bitsToWord bs) = bs := by
  apply List.ext_getElem
  · simp [wordToBits, h]
  · intro k h1 h2
    simp only [wordToBits, List.getElem_map, List.getElem_range]
    have hk : k < 16 := by simpa [wordToBits] using h1
    rw [bitsToWord_testBit bs k hk]
    exact List.getD_eq_getElem bs false h2

/-- Unpacking packed phasor words recovers count values, each within
PhasorClose of its source channel. -/
theorem unpack_pack_phasors (p : PMUStation) :
    ∀ (n j : Nat) (ws : List PWord),
      (∀ i < n, formatPhasorType p = false → 1 ≤ getPhasorFactor p (j + i)) →
      ∃ zs, unpackPhasors p j n (packPhasors p j n ++ ws) = some (zs, ws) ∧
        zs.length = n ∧ ∀ i < n,
          PhasorClose p (j + i) (p.phasorValues.getD (j + i) (0, 0)) (zs.getD i (0, 0)) := by
  intro n
  induction n with
  | zero =>
    intro j ws _
    exact ⟨[], by simp [packPhasors, unpackPhasors], rfl, by omega⟩
  | succ n ih =>
    intro j ws hfac
    obtain ⟨zr, heq, hclose⟩ := phasor_word_roundtrip p j (packPhasors p (j + 1) n ++ ws)
      (fun h => by simpa using hfac 0 (by omega) h)
    obtain ⟨zs, heq2, hlen, hcl⟩ := ih (j + 1) ws
      (fun i hi h => by
        have := hfac (i + 1) (by omega) h
        simpa [Nat.add_assoc, Nat.add_comm 1 i] using this)
    refine ⟨zr :: zs, ?_, by simp [hlen], ?_⟩
    · simp only [packPhasors, List.append_assoc]
      simp only [unpackPhasors, heq, heq2]
    · intro i hi
      cases i with
      | zero => simpa using hclose
      | succ i2 =>
        have := hcl i2 (by omega)
        simpa [Nat.add_assoc, Nat.add_comm 1 i2] using this


/-- Unpacking packed freq/dfreq words: exact in float mode, within the
1/1000 and 1/100 quantization steps in integer mode. -/
theorem freq_roundtrip (p : PMUStation) (ws : List PWord) :
    ∃ fd, freqUnpackWords p (freqPackWords p ++ ws) = some (fd, ws) ∧
      (formatFreqType p = true → fd = (p.freq, p.dfreq)) ∧
      (formatFreqType p = false →
        |fd.1 - p.freq| ≤ 1 / 1000 ∧ |fd.2 - p.dfreq| ≤ 1 / 100) := by
  cases hf : formatFreqType p
  · have heq : freqUnpackWords p (freqPackWords p ++ ws) =
        some ((getNominalFrequency p +
            ((gotrunc ((p.freq - getNominalFrequency p) * 1000) : ℤ) : ℝ) / 1000,
          ((gotrunc (p.dfreq * 100) : ℤ) : ℝ) / 100), ws) := by
      simp only [freqPackWords, freqUnpackWords, hf, Bool.false_eq_true, if_false,
        List.cons_append, List.nil_append]
    refine ⟨_, heq, fun h => absurd h (by simp), fun _ => ⟨?_, ?_⟩⟩
    · have hb := trunc_div_bound 1000 (p.freq - getNominalFrequency p) (by norm_num)
      have hrw : getNominalFrequency p +
          ((gotrunc ((p.freq - getNominalFrequency p) * 1000) : ℤ) : ℝ) / 1000 - p.freq =
          ((gotrunc ((p.freq - getNominalFrequency p) * 1000) : ℤ) : ℝ) / 1000 -
            (p.freq - getNominalFrequency p) := by ring
      rw [hrw]
      linarith [hb]
    · have hb := trunc_div_bound 100 p.dfreq (by norm_num)
      simpa using hb
  · have heq : freqUnpackWords p (freqPackWords p ++ ws) =
        some ((p.freq, p.dfreq), ws) := by
      simp only [freqPackWords, freqUnpackWords, hf, if_true,
        List.cons_append, List.nil_append]
    exact ⟨_, heq, fun _ => rfl, fun h => absurd h (by simp)⟩

/-- Unpacking packed analog words recovers count values: exact in float
mode, within 1 in integer mode. -/
theorem unpack_pack_analogs (p : PMUStation) :
    ∀ (n j : Nat) (ws : List PWord),
      ∃ vs, unpackAnalogs p n (packAnalogs p j n ++ ws) = some (vs, ws) ∧
        vs.length = n ∧ ∀ i < n,
          (formatAnalogType p = true → vs.getD i 0 = p.analogValues.getD (j + i) 0) ∧
          (formatAnalogType p = false →
            |vs.getD i 0 - p.analogValues.getD (j + i) 0| ≤ 1) := by
  intro n
  induction n with
  | zero =>
    intro j ws
    exact ⟨[], by simp [packAnalogs, unpackAnalogs], rfl, by omega⟩
  | succ n ih =>
    intro j ws
    obtain ⟨vs, heq, hlen, hcl⟩ := ih (j + 1) ws
    have hshift : ∀ i2, i2 < n → j + 1 + i2 = j + (i2 + 1) := by omega
    cases ha : formatAnalogType p
    · refine ⟨(gotrunc (p.analogValues.getD j 0) : ℤ) :: vs, ?_, by simp [hlen], ?_⟩
      · simp only [packAnalogs, analogPackWords, ha, Bool.false_eq_true, if_false,
          List.cons_append, List.nil_append, unpackAnalogs, heq]
      · intro i hi
        cases i with
        | zero =>
          refine ⟨fun h => absurd h (by simp), fun _ => ?_⟩
          simpa using (gotrunc_err (p.analogValues.getD j 0)).le
        | succ i2 =>
          have hc2 := hcl i2 (by omega)
          refine ⟨fun h => absurd h (by simp), fun _ => ?_⟩
          have h2 := hc2.2 ha
          rw [hshift i2 (by omega)] at h2
          simpa using h2
    · refine ⟨p.analogValues.getD j 0 :: vs, ?_, by simp [hlen], ?_⟩
      · simp only [packAnalogs, analogPackWords, ha, if_true,
          List.cons_append, List.nil_append, unpackAnalogs, heq]
      · intro i hi
        cases i with
        | zero =>
          exact ⟨fun _ => by simp, fun h => absurd h (by simp)⟩
        | succ i2 =>
          have hc2 := hcl i2 (by omega)
          refine ⟨fun _ => ?_, fun h => absurd h (by simp)⟩
          have h2 := hc2.1 ha
          rw [hshift i2 (by omega)] at h2
          simpa using h2

/-- Unpacking packed digital words recovers each 16-channel group exactly. -/
theorem unpack_pack_digitals (p : PMUStation)
    (hwf : ∀ bs ∈ p.digitalValues, bs.length = 16)
    (hlen : p.digitalValues.length = p.dgnmr) :
    ∀ (n j : Nat) (ws : List PWord), j + n ≤ p.dgnmr →
      ∃ ds, unpackDigitals n (packDigitals p j n ++ ws) = some (ds, ws) ∧
        ds.length = n ∧ ∀ i < n, ds.getD i [] = p.digitalValues.getD (j + i) [] := by
  intro n
  induction n with
  | zero =>
    intro j ws _
    exact ⟨[], by simp [packDigitals, unpackDigitals], rfl, by omega⟩
  | succ n ih =>
    intro j ws hb
    obtain ⟨ds, heq, hdlen, hcl⟩ := ih (j + 1) ws (by omega)
    have hj : j < p.digitalValues.length := by omega
    have hmem : p.digitalValues.getD j [] ∈ p.digitalValues := by
      rw [List.getD_eq_getElem p.digitalValues [] hj]
      exact List.getElem_mem hj
    refine ⟨p.digitalValues.getD j [] :: ds, ?_, by simp [hdlen], ?_⟩
    · simp only [packDigitals, List.cons_append, unpackDigitals, heq]
      rw [wordToBits_bitsToWord (p.digitalValues.getD j []) (hwf _ hmem)]
    · intro i hi
      cases i with
      | zero => simp
      | succ i2 =>
        have := hcl i2 (by omega)
        simpa [Nat.add_assoc, Nat.add_comm 1 i2] using this


/-- One station's packed payload words unpack to a station that recovers
the source within the quantization bounds. -/
theorem station_roundtrip (p : PMUStation) (hwf : StationWF p)
    (hrange : StationInRange p) (ws : List PWord) :
    ∃ p2, stationUnpackWords p (stationPackWords p ++ ws) = some (p2, ws) ∧
      StationRecovers p p2 := by
  obtain ⟨hwf1, hwf2, hwf3, hwf4⟩ := hwf
  obtain ⟨hr1, hr2, hr3, hr4⟩ := hrange
  have hfac : ∀ i < p.phnmr, formatPhasorType p = false → 1 ≤ getPhasorFactor p (0 + i) := by
    intro i hi hp
    cases hc : formatCoord p
    · simpa using (hr1 hp hc i hi).1
    · simpa using (hr2 hp hc i hi).1
  obtain ⟨zs, heqP, hlenP, hclP⟩ := unpack_pack_phasors p p.phnmr 0
    (freqPackWords p ++ (packAnalogs p 0 p.annmr ++ (packDigitals p 0 p.dgnmr ++ ws))) hfac
  obtain ⟨fd, heqF, hfT, hfF⟩ := freq_roundtrip p
    (packAnalogs p 0 p.annmr ++ (packDigitals p 0 p.dgnmr ++ ws))
  obtain ⟨f, df⟩ := fd
  obtain ⟨vs, heqA, hlenA, hclA⟩ := unpack_pack_analogs p p.annmr 0
    (packDigitals p 0 p.dgnmr ++ ws)
  obtain ⟨ds, heqD, hdlen, hclD⟩ := unpack_pack_digitals p hwf4 hwf3 p.dgnmr 0 ws (by omega)
  have hds : ds = p.digitalValues := by
    apply List.ext_getElem (by omega)
    intro k h1 h2
    have hk := hclD k (by omega)
    rw [List.getD_eq_getElem ds [] h1] at hk
    rw [show (0 : Nat) + k = k by omega, List.getD_eq_getElem p.digitalValues [] h2] at hk
    exact hk
  refine ⟨{ p with stat := p.stat, phasorValues := zs, freq := f, dfreq := df, analogValues := vs, digitalValues := ds }, ?_, ?_⟩
  · simp only [stationPackWords, List.cons_append, List.append_assoc]
    simp only [stationUnpackWords, heqP, heqF, heqA, heqD]
  · refine ⟨rfl, hlenP, ?_, ?_, ?_, hlenA, ?_, ?_, hds⟩
    · intro j hj
      simpa using hclP j hj
    · intro h
      have := hfT h
      simp only [Prod.mk.injEq] at this
      exact ⟨this.1, this.2⟩
    · intro h
      exact hfF h
    · intro h j hj
      have := (hclA j hj).1 h
      simpa using this
    · intro h j hj
      have := (hclA j hj).2 h
      simpa using this


/-- The stations of a directory unpack in sequence from their concatenated
packed payloads, each recovering its source. -/
theorem stations_roundtrip :
    ∀ (ps : List PMUStation) (ws : List PWord),
      (∀ p ∈ ps, StationWF p) → (∀ p ∈ ps, StationInRange p) →
      ∃ ps2, stationsUnpackWords ps ((ps.map stationPackWords).flatten ++ ws) = some ps2 ∧
        List.Forall₂ StationRecovers ps ps2 := by
  intro ps
  induction ps with
  | nil =>
    intro ws _ _
    exact ⟨[], by simp [stationsUnpackWords], List.Forall₂.nil⟩
  | cons p ps ih =>
    intro ws hwf hr
    obtain ⟨p2, heq, hrec⟩ := station_roundtrip p (hwf p (by simp)) (hr p (by simp))
      ((ps.map stationPackWords).flatten ++ ws)
    obtain ⟨ps2, heq2, hrec2⟩ := ih ws (fun q hq => hwf q (by simp [hq]))
      (fun q hq => hr q (by simp [hq]))
    refine ⟨p2 :: ps2, ?_, List.Forall₂.cons hrec hrec2⟩
    simp only [List.map_cons, List.flatten_cons, List.append_assoc]
    simp only [stationsUnpackWords, heq, heq2]

/-- C1: for every directory whose stations are well-formed (array lengths
match the channel counts) and whose integer-mode scaled values are in
16-bit range, packing the Data payload and unpacking it against the same
directory succeeds and recovers every station: STAT and digital words
exactly, float-mode phasors, frequency/ROCOF and analogs exactly (floats
idealized as exact reals), integer-mode phasors within the scale
quantization step factor/1e5 per rectangular component (plus the
magnitude-scaled 1e-4 rad angle step in polar mode), frequency within
1/1000, ROCOF within 1/100, analogs within 1. -/
theorem c1_roundtrip (cfg : ConfigFrame)
    (hwf : ∀ p ∈ cfg.pmuStationList, StationWF p)
    (hrange : ∀ p ∈ cfg.pmuStationList, StationInRange p) :
    ∃ cfg2, dataUnpackWords cfg (dataPackWords cfg) = some cfg2 ∧
      List.Forall₂ StationRecovers cfg.pmuStationList cfg2.pmuStationList := by
  obtain ⟨ps2, heq, hrec⟩ := stations_roundtrip cfg.pmuStationList [] hwf hrange
  rw [List.append_nil] at heq
  refine ⟨{ cfg with pmuStationList := ps2 }, ?_, hrec⟩
  simp only [dataUnpackWords, dataPackWords, heq]

/-- The round-trip theorem applied to the concrete one-station all-integer
directory c7Cfg. -/
theorem c1_roundtrip_witness :
    ∃ cfg2, dataUnpackWords c7Cfg (dataPackWords c7Cfg) = some cfg2 ∧
      List.Forall₂ StationRecovers c7Cfg.pmuStationList cfg2.pmuStationList := by
  apply c1_roundtrip c7Cfg
  · intro p hp
    simp only [c7Cfg, List.mem_singleton] at hp
    subst hp
    exact ⟨rfl, rfl, rfl, by simp [c7Station]⟩
  · intro p hp
    simp only [c7Cfg, List.mem_singleton] at hp
    subst hp
    refine ⟨?_, ?_, ?_, ?_⟩
    · intro _ _ j hj
      obtain rfl : j = 0 := by simp only [c7Station] at hj; omega
      refine ⟨by decide, ?_, ?_⟩
      · have hfac : getPhasorFactor c7Station 0 = 915527 := by decide
        rw [hfac]
        simp only [c7Station, List.getD_cons_zero]
        rw [abs_of_nonneg (by norm_num)]
        norm_num
      · have hfac : getPhasorFactor c7Station 0 = 915527 := by decide
        rw [hfac]
        simp only [c7Station, List.getD_cons_zero]
        rw [abs_of_nonneg (by norm_num)]
        norm_num
    · intro _ h
      exact absurd h (by decide)
    · intro _
      constructor
      · have hnom : getNominalFrequency c7Station = 60 := by
          simp [getNominalFrequency, c7Station]
        rw [hnom]
        simp only [c7Station]
        norm_num
      · simp only [c7Station]
        norm_num
    · intro _ j hj
      simp only [c7Station] at hj
      omega

end Synchrophasor
